import Mathlib

/-!
Verification development for the report post-processing pipeline in
scripts/custom_report.py: metric extraction (R-squared fit score, ROI by
channel), chart-block location and transformation, and the marketing-insight
rule engine.

Python text is modelled as `List Char`; Python floats are modelled as exact
rationals `ℚ` (decimal literals such as "1.5" parse exactly); Python `int(x)`
truncation is `pyIntTrunc`; code that can raise an exception is modelled in
the `Except Unit` monad, with the caller-level `try/except` realised by
mapping `Except.error` to an absent result.
-/

attribute [local semireducible] Rat.add Rat.sub Rat.mul Rat.inv

abbrev Str := List Char

/-! ### Basic string primitives (Python `str` operations) -/

def startsWithL : Str → Str → Bool
  | [], _ => true
  | _ :: _, [] => false
  | p :: ps, c :: cs => p = c && startsWithL ps cs

/-- Index of the first occurrence of `pat` in `s` (Python `str.find`, as an
`Option`). -/
def findSubIdx (pat : Str) : Str → Option Nat
  | [] => if pat = [] then some 0 else none
  | c :: cs =>
    if startsWithL pat (c :: cs) then some 0
    else (findSubIdx pat cs).map (· + 1)

/-- Python `str.find(pat, start)`. -/
def findSubFromIdx (pat s : Str) (start : Nat) : Option Nat :=
  (findSubIdx pat (s.drop start)).map (· + start)

def containsSubL (s pat : Str) : Bool := (findSubIdx pat s).isSome

/-- Python `str.rfind(pat, 0, stop)`: the largest index `i` with
`i + pat.length ≤ stop` at which `pat` occurs in `s`. -/
def rfindSubBefore (pat s : Str) (stop : Nat) : Option Nat :=
  (List.range (stop + 1 - pat.length)).foldl
    (fun acc i => if startsWithL pat (s.drop i) then some i else acc) none

/-- Python slice `s[a:b]`. -/
def sliceL (s : Str) (a b : Nat) : Str := (s.drop a).take (b - a)

def toLowerL (s : Str) : Str := s.map Char.toLower

def toUpperL (s : Str) : Str := s.map Char.toUpper

/-- ASCII-range model of Python regex `\s` / `str.strip` whitespace. -/
def isPySpace (c : Char) : Bool :=
  c = ' ' || c = '\t' || c = '\n' || c = '\r' || c = '\x0b' || c = '\x0c'

def isDigitDot (c : Char) : Bool := c.isDigit || c = '.'

/-- Python `str.strip()`. -/
def pyStrip (s : Str) : Str :=
  ((s.dropWhile isPySpace).reverse.dropWhile isPySpace).reverse

/-- Python `str.rstrip(c)` for a single strip character. -/
def rstripCh (c : Char) (s : Str) : Str :=
  (s.reverse.dropWhile (· = c)).reverse

/-- Python `''.replace('', rep)` inserts `rep` before every character and at
the end. -/
def interleaveRep (rep : Str) : Str → Str
  | [] => rep
  | c :: t => rep ++ c :: interleaveRep rep t

def pyReplaceF (pat rep : Str) : Nat → Str → Str
  | 0, s => s
  | fuel + 1, s =>
    if startsWithL pat s && !pat.isEmpty then
      rep ++ pyReplaceF pat rep fuel (s.drop pat.length)
    else
      match s with
      | [] => []
      | c :: t => c :: pyReplaceF pat rep fuel t

/-- Python `s.replace(pat, rep)` (all non-overlapping occurrences, left to
right). -/
def pyReplace (s pat rep : Str) : Str :=
  if pat = [] then interleaveRep rep s else pyReplaceF pat rep s.length s

/-! ### Association lists (Python `dict` with insertion order) -/

def lookupKV {α : Type} : List (Str × α) → Str → Option α
  | [], _ => none
  | (k, v) :: rest, key => if k = key then some v else lookupKV rest key

/-- `d[k] = v` on a Python dict: update in place if present, else append. -/
def setKV {α : Type} : List (Str × α) → Str → α → List (Str × α)
  | [], key, v => [(key, v)]
  | (k, w) :: rest, key, v =>
    if k = key then (k, v) :: rest else (k, w) :: setKV rest key v

/-- Set-like insertion used to model membership in a Python `set` (iteration
order of the real set is unspecified; only membership matters downstream). -/
def addSet (l : List Str) (k : Str) : List Str :=
  if k ∈ l then l else l ++ [k]

/-! ### Numbers: Python `float(...)`, `int(...)`, and string formatting -/

def digitsToNat (s : Str) : Nat :=
  s.foldl (fun acc c => acc * 10 + (c.toNat - '0'.toNat)) 0

/-- Python `float(s)` restricted to strings of digits and dots (the only
shapes that reach it in this program): at most one dot, at least one digit,
and no other characters; the value is the exact decimal. -/
def pyFloat (s : Str) : Option ℚ :=
  if s = [] then none
  else if !(s.all isDigitDot) then none
  else if 1 < (s.filter (· = '.')).length then none
  else if s.filter Char.isDigit = [] then none
  else
    let ip := s.takeWhile (· ≠ '.')
    let fp := (s.dropWhile (· ≠ '.')).drop 1
    some (mkRat (Int.ofNat (digitsToNat ip * 10 ^ fp.length + digitsToNat fp))
      (10 ^ fp.length))

/-- Python `int(x)` on a float: truncation toward zero. -/
def pyIntTrunc (q : ℚ) : ℤ := if 0 ≤ q then ⌊q⌋ else -⌊-q⌋

def natToLc (n : Nat) : Str := Nat.toDigits 10 n

def intToLc (i : ℤ) : Str :=
  if i < 0 then '-' :: natToLc i.natAbs else natToLc i.natAbs

/-- Round to the nearest integer, ties to even (the rounding used by Python
`format` on floats; float representation error is not modelled). -/
def roundHalfEven (q : ℚ) : ℤ :=
  let f := ⌊q⌋
  let r := q - (f : ℚ)
  if r < 1/2 then f
  else if 1/2 < r then f + 1
  else if f % 2 = 0 then f else f + 1

def padZeros (width : Nat) (s : Str) : Str :=
  List.replicate (width - s.length) '0' ++ s

/-- Python `format(q, '.Nf')` on the exact rational value. -/
def fmtQ (prec : Nat) (q : ℚ) : Str :=
  let neg := q < 0
  let n := (roundHalfEven (|q| * (mkRat (Int.ofNat (10 ^ prec)) 1))).toNat
  let ip := n / 10 ^ prec
  let fp := n % 10 ^ prec
  (if neg then ['-'] else []) ++ natToLc ip ++
    (if prec = 0 then [] else '.' :: padZeros prec (natToLc fp))

/-! ### Bespoke matchers for the fixed regex patterns of custom_report.py

Each Python pattern is a concatenation of literals, `\s*`, greedy character
classes and (for `[^}]*`) one genuinely backtracking greedy star; each is
implemented as a deterministic scanner with the same match semantics
(leftmost match, greedy classes, rightmost split for `[^}]*` before its
required literal tail). -/

def expectLit (lit s : Str) : Option Str :=
  if startsWithL lit s then some (s.drop lit.length) else none

def skipPySpaces (s : Str) : Str := s.dropWhile isPySpace

/-- Class run for `([0-9.]+)`: greedy, at least one character. -/
def matchNumCapture (s : Str) : Option (Str × Str) :=
  let cap := s.takeWhile isDigitDot
  if cap = [] then none else some (cap, s.drop cap.length)

/-- Opening/closing quote of the channel capture: `\"` in the escaped
pattern variants, `"` in the raw ones. -/
def quoteLit (esc : Bool) : Str := if esc then ['\\', '"'] else ['"']

/-- Capture for `\"([^\\"]+)\"` (escaped) or `"([^"]+)"` (raw): the class
excludes the quote (and the backslash in the escaped variant), so the greedy
run followed by the closing quote is deterministic. -/
def matchQuotedCapture (esc : Bool) (s : Str) : Option (Str × Str) := do
  let s1 ← expectLit (quoteLit esc) s
  let cap := s1.takeWhile (fun c => if esc then !(c = '\\' || c = '"') else c ≠ '"')
  if cap = [] then none
  else do
    let s2 ← expectLit (quoteLit esc) (s1.drop cap.length)
    some (cap, s2)

/-- Greedy `[^}]*` followed by a tail pattern: Python backtracks from the
longest class run, so the rightmost split point inside the brace-free region
at which the tail matches wins. -/
def greedyNonBraceTail {α : Type} (tail : Str → Option α) (s : Str) : Option α :=
  go ((s.takeWhile (· ≠ '\x7d')).length)
where
  go : Nat → Option α
    | 0 => tail s
    | p + 1 =>
      match tail (s.drop (p + 1)) with
      | some a => some a
      | none => go p

def channelLit (esc : Bool) : Str :=
  if esc then "\\\"channel\\\":".data else "\"channel\":".data

def roiLit (esc : Bool) : Str :=
  if esc then "\\\"roi\\\":".data else "\"roi\":".data

/-- One match attempt, anchored at the start of `s`, of pattern 1/2 of
`extract_roi_by_channel`: channel first, then `[^}]*`, then roi.  Returns
(group 1, group 2, rest after the match). -/
def tryChanRoiAt (esc : Bool) (s : Str) : Option (Str × Str × Str) := do
  let s1 ← expectLit (channelLit esc) s
  let (chan, s2) ← matchQuotedCapture esc (skipPySpaces s1)
  greedyNonBraceTail (fun r => do
    let r1 ← expectLit (roiLit esc) r
    let (roi, r2) ← matchNumCapture (skipPySpaces r1)
    some (chan, roi, r2)) s2

/-- One match attempt of pattern 3/4: roi first, then `[^}]*`, then channel. -/
def tryRoiChanAt (esc : Bool) (s : Str) : Option (Str × Str × Str) := do
  let s1 ← expectLit (roiLit esc) s
  let (roi, s2) ← matchNumCapture (skipPySpaces s1)
  greedyNonBraceTail (fun r => do
    let r1 ← expectLit (channelLit esc) r
    let (chan, r2) ← matchQuotedCapture esc (skipPySpaces r1)
    some (roi, chan, r2)) s2

/-- `re.finditer` for one pattern: scan left to right, resume after each
match.  `fuel` bounds the number of scanning steps; callers pass
`s.length + 1`, which every successful match (consuming at least the pattern
literal) respects. -/
def finditerWith (tryAt : Str → Option (Str × Str × Str)) :
    Nat → Str → List (Str × Str)
  | 0, _ => []
  | fuel + 1, s =>
    match tryAt s with
    | some (g1, g2, rest) => (g1, g2) :: finditerWith tryAt fuel rest
    | none =>
      match s with
      | [] => []
      | _ :: t => finditerWith tryAt fuel t

/-- All (group 1, group 2) matches of the four ROI patterns, in the order
the code scans them. -/
def roiMatchList (t : Str) : List (Str × Str) :=
  finditerWith (tryChanRoiAt true) (t.length + 1) t ++
  finditerWith (tryChanRoiAt false) (t.length + 1) t ++
  finditerWith (tryRoiChanAt true) (t.length + 1) t ++
  finditerWith (tryRoiChanAt false) (t.length + 1) t

/-- One match attempt of the bare channel-discovery patterns. -/
def tryBareChanAt (esc : Bool) (s : Str) : Option (Str × Str) := do
  let s1 ← expectLit (channelLit esc) s
  matchQuotedCapture esc (skipPySpaces s1)

def finditerBare (esc : Bool) : Nat → Str → List Str
  | 0, _ => []
  | fuel + 1, s =>
    match tryBareChanAt esc s with
    | some (g, rest) => g :: finditerBare esc fuel rest
    | none =>
      match s with
      | [] => []
      | _ :: t => finditerBare esc fuel t

def bareMatchList (t : Str) : List Str :=
  finditerBare true (t.length + 1) t ++ finditerBare false (t.length + 1) t

/-! ### extract_roi_by_channel -/

/-- Processing of one regex match, lines 179-200 of custom_report.py: decide
which group is the channel (first character a letter), strip, clean the
numeric string, parse, and do the guarded first-match-wins inserts.  The
state is (roi_data, all_channels). -/
def processRoiStep (st : List (Str × Option ℚ) × List Str) (channel : Str)
    (res : Option ℚ) : List (Str × Option ℚ) × List Str :=
  match res with
  | some v =>
    if toUpperL channel ≠ "BASELINE".data then
      ((if (lookupKV st.1 channel).isSome then st.1 else st.1 ++ [(channel, some v)]),
       addSet st.2 channel)
    else st
  | none =>
    if toUpperL channel ≠ "BASELINE".data then (st.1, addSet st.2 channel) else st

def processRoiMatch (st : List (Str × Option ℚ) × List Str) (g : Str × Str) :
    List (Str × Option ℚ) × List Str :=
  let isLetter := match g.1 with
    | c :: _ => c.isAlpha
    | [] => false
  let chanRaw := if isLetter then g.1 else g.2
  let roiRaw := if isLetter then g.2 else g.1
  let channel := pyStrip chanRaw
  let roiStr0 := rstripCh ',' (rstripCh '.' (pyStrip roiRaw))
  let roiStr := roiStr0.filter isDigitDot
  processRoiStep st channel (pyFloat roiStr)

def roiPatternState (t : Str) : List (Str × Option ℚ) × List Str :=
  (roiMatchList t).foldl processRoiMatch ([], [])

/-- The channel-discovery pass, lines 203-212: bare `"channel"` matches are
stripped and added to `all_channels` unless they are the baseline sentinel. -/
def roiAllChannels (t : Str) : List Str :=
  (bareMatchList t).foldl
    (fun l g =>
      let c := pyStrip g
      if toUpperL c ≠ "BASELINE".data then addSet l c else l)
    (roiPatternState t).2

/-- Lines 215-217: every discovered channel without an ROI is added with an
absent value. -/
def finalFill (m : List (Str × Option ℚ)) (l : List Str) : List (Str × Option ℚ) :=
  l.foldl (fun m c => if (lookupKV m c).isSome then m else m ++ [(c, none)]) m

/-- `extract_roi_by_channel`; a missing report file is the `none` input. -/
def extract_roi_by_channel (file : Option Str) : List (Str × Option ℚ) :=
  match file with
  | none => []
  | some t => finalFill (roiPatternState t).1 (roiAllChannels t)

/-! ### extract_r2_from_html -/

/-- Tail pattern `<td[^>]*>([0-9.]+)</td>`, anchored at the start of `s`.
The greedy `[^>]*` run followed by the required `>` and the greedy digit run
followed by the required `</td>` are both deterministic. -/
def tryTdTailAt (s : Str) : Option Str := do
  let s1 ← expectLit "<td".data s
  let s2 ← expectLit ">".data (s1.dropWhile (· ≠ '>'))
  let (num, s3) ← matchNumCapture s2
  let _ ← expectLit "</td>".data s3
  some num

/-- The lazy `.*?` before the td pattern: the earliest position at which the
tail matches. -/
def searchTdTail : Nat → Str → Option Str
  | 0, _ => none
  | fuel + 1, s =>
    match tryTdTailAt s with
    | some g => some g
    | none =>
      match s with
      | [] => none
      | _ :: t => searchTdTail fuel t

def tryPrimaryAt (s : Str) : Option Str := do
  let s1 ← expectLit "<th>R-squared</th>".data s
  searchTdTail (s1.length + 1) s1

/-- `re.search` of the primary pattern
`<th>R-squared</th>.*?<td[^>]*>([0-9.]+)</td>` (DOTALL): leftmost overall
match, returning group 1. -/
def searchPrimaryAux : Nat → Str → Option Str
  | 0, _ => none
  | fuel + 1, s =>
    match tryPrimaryAt s with
    | some g => some g
    | none =>
      match s with
      | [] => none
      | _ :: t => searchPrimaryAux fuel t

def searchPrimaryGroup (t : Str) : Option Str := searchPrimaryAux (t.length + 1) t

def tryFallbackAt (s : Str) : Option Str := do
  let s1 ← expectLit "r-squared".data s
  searchTdTail (s1.length + 1) s1

def searchFallbackAux : Nat → Str → Option Str
  | 0, _ => none
  | fuel + 1, s =>
    match tryFallbackAt s with
    | some g => some g
    | none =>
      match s with
      | [] => none
      | _ :: t => searchFallbackAux fuel t

/-- `re.search` of the fallback pattern `R-squared.*?<td[^>]*>([0-9.]+)</td>`
(IGNORECASE, DOTALL), realised by scanning the lowercased text with lowercase
literals; per-character lowering is length-preserving and leaves the digit
capture unchanged. -/
def searchFallbackGroup (t : Str) : Option Str :=
  searchFallbackAux ((toLowerL t).length + 1) (toLowerL t)

/-- `extract_r2_from_html`, lines 116-153: primary pattern first; on a
missing match or an unparseable captured value, the case-insensitive
fallback pattern; a missing file (`none` input) or no parseable match gives
an absent score. -/
def extract_r2_from_html (file : Option Str) : Option ℚ :=
  match file with
  | none => none
  | some t =>
    match searchPrimaryGroup t with
    | some g =>
      match pyFloat g with
      | some v => some v
      | none =>
        match searchFallbackGroup t with
        | some g2 => pyFloat g2
        | none => none
    | none =>
      match searchFallbackGroup t with
      | some g2 => pyFloat g2
      | none => none

/-! ### generate_marketing_insights -/

structure Insight where
  type : Str
  title : Str
  description : Str
  action : Str
deriving DecidableEq, Repr

/-- Stable descending insertion used to model
`sorted(..., key=lambda x: x[1], reverse=True)`: a later element is placed
after every earlier element whose key is at least as large. -/
def insertLater (x : Str × ℚ) : List (Str × ℚ) → List (Str × ℚ)
  | [] => [x]
  | y :: ys => if y.2 < x.2 then x :: y :: ys else y :: insertLater x ys

def pySortDesc (l : List (Str × ℚ)) : List (Str × ℚ) :=
  l.foldl (fun acc x => insertLater x acc) []

/-- The channels with a present ROI value, in discovery order (the dead
`roi != 'N/A'` guard of line 481 cannot fire: extracted values are floats or
`None`). -/
def presentPairs (roi : List (Str × Option ℚ)) : List (Str × ℚ) :=
  roi.filterMap (fun p => match p.2 with
    | some q => some (p.1, q)
    | none => none)

def listMaxQ : List ℚ → ℚ
  | [] => 0
  | x :: xs => xs.foldl max x

def listMinQ : List ℚ → ℚ
  | [] => 0
  | x :: xs => xs.foldl min x

def fitWarnRec (s : ℚ) : Insight :=
  { type := "warning".data
  , title := "⚠️ Model needs improvement for better accuracy".data
  , description := "With an R² of ".data ++ fmtQ 3 s ++
      ", the model explains a significant portion of the variation but can be improved by approximately ".data ++
      intToLc (pyIntTrunc ((3/4 - s) * 100)) ++ " points.".data
  , action := "Enrich your data (external variables, seasonality, events) to improve model accuracy.".data }

def fitDangerRec (s : ℚ) : Insight :=
  { type := "danger".data
  , title := "🔴 Model requires revision".data
  , description := "With an R² of ".data ++ fmtQ 3 s ++
      ", the model explains less than half of the variation. It requires approximately ".data ++
      intToLc (pyIntTrunc ((1/2 - s) * 100)) ++ " points of improvement to be reliable.".data
  , action := "Review model variables and collect more data to improve prediction quality.".data }

/-- Lines 458-476: the fit-score rule. -/
def fitScoreInsights (score : Option ℚ) : List Insight :=
  match score with
  | none => []
  | some s =>
    if (3:ℚ)/4 ≤ s then []
    else if (1:ℚ)/2 ≤ s then [fitWarnRec s]
    else [fitDangerRec s]

def bestIncreasePctHigh (br : ℚ) : ℤ :=
  let p := min 30 (pyIntTrunc ((br - 1) * 20))
  if p < 10 then 10 else p

def bestIncreasePctMid (br : ℚ) : ℤ :=
  let p := min 15 (pyIntTrunc ((br - 1) * 30))
  if p < 5 then 5 else p

def bestSuccessRec (bc : Str) (br : ℚ) : Insight :=
  { type := "success".data
  , title := "🚀 ".data ++ bc ++ ": High-performing channel to prioritize".data
  , description := "With a ROI of ".data ++ fmtQ 2 br ++
      ", every dollar invested in ".data ++ bc ++ " generates $".data ++ fmtQ 2 br ++
      " in revenue. This is your most profitable channel.".data
  , action := "Gradually increase the budget allocated to ".data ++ bc ++ " by ".data ++
      intToLc (bestIncreasePctHigh br) ++ "% to maximize return on investment.".data }

def bestInfoRec (bc : Str) (br : ℚ) : Insight :=
  { type := "info".data
  , title := "📈 ".data ++ bc ++ ": Profitable channel".data
  , description := "With a ROI of ".data ++ fmtQ 2 br ++ ", ".data ++ bc ++
      " generates a positive return on investment.".data
  , action := "Maintain or slightly increase the ".data ++ bc ++ " budget by ".data ++
      intToLc (bestIncreasePctMid br) ++ "% while testing new creative approaches.".data }

def allUnderRec (bc : Str) (br : ℚ) : Insight :=
  { type := "warning".data
  , title := "⚠️ All channels underperforming".data
  , description := "Even the best channel (".data ++ bc ++ ") has a ROI of ".data ++
      fmtQ 2 br ++ ", below 1.0.".data
  , action := "Review your creative strategies, targets, and messaging. Test new approaches before increasing budgets.".data }

/-- Lines 490-516: the best-channel rule (reached only when the sorted list
is nonempty). -/
def bestChannelInsights (sorted : List (Str × ℚ)) : List Insight :=
  match sorted with
  | [] => []
  | (bc, br) :: _ =>
    if (3:ℚ)/2 < br then [bestSuccessRec bc br]
    else if (1:ℚ) < br then [bestInfoRec bc br]
    else [allUnderRec bc br]

def worstReductionPct (ratio : ℚ) : ℤ :=
  let p := min 40 (pyIntTrunc ((1 - ratio) * 50))
  if p < 15 then 15 else p

def worstReallocPct (gap : ℚ) : ℤ :=
  let p := min 35 (pyIntTrunc (gap * 25))
  if p < 20 then 20 else p

def worstRec (bc wc : Str) (br wr gap ratio : ℚ) : Insight :=
  { type := "warning".data
  , title := "🔍 ".data ++ wc ++ ": Channel to optimize".data
  , description := "With a ROI of ".data ++ fmtQ 2 wr ++ ", ".data ++ wc ++ " is ".data ++
      fmtQ 2 gap ++ " points below ".data ++ bc ++ " (ROI: ".data ++ fmtQ 2 br ++ "), ".data ++
      intToLc (pyIntTrunc ((1 - ratio) * 100)) ++ "% less performant.".data
  , action := "Analyze ".data ++ wc ++
      " performance: targeted audiences, creatives, placements. Reduce budget by ".data ++
      intToLc (worstReductionPct ratio) ++ "% and reallocate ".data ++
      intToLc (worstReallocPct gap) ++ "% to ".data ++ bc ++ ".".data }

/-- Lines 519-537: the worst-channel rule. -/
def worstChannelInsights (sorted : List (Str × ℚ)) : List Insight :=
  if 1 < sorted.length then
    let b := sorted.headD ([], 0)
    let w := sorted.getLastD ([], 0)
    let gap := b.2 - w.2
    let ratio := if 0 < b.2 then w.2 / b.2 else 0
    if ratio < (7:ℚ)/10 then [worstRec b.1 w.1 b.2 w.2 gap ratio] else []
  else []

def divReallocPct (rangePct : ℤ) : ℤ :=
  let p := min 30 (pyIntTrunc (mkRat rangePct 3))
  if p < 10 then 10 else p

def divRec (br wr variance : ℚ) (rangePct : ℤ) : Insight :=
  { type := "info".data
  , title := "💼 Channel diversification".data
  , description := "Your channels show varied ROI (from ".data ++ fmtQ 2 wr ++ " to ".data ++
      fmtQ 2 br ++ "), with a gap of ".data ++ fmtQ 2 variance ++ " points (".data ++
      intToLc rangePct ++ "% variation), indicating optimization opportunities.".data
  , action := "Reallocate ".data ++ intToLc (divReallocPct rangePct) ++
      "% of budget from underperforming channels to the most profitable ones, while maintaining minimal presence to test new opportunities.".data }

/-- Lines 540-555: the diversification rule. -/
def divInsights (sorted : List (Str × ℚ)) : List Insight :=
  if 3 ≤ sorted.length then
    let b := sorted.headD ([], 0)
    let w := sorted.getLastD ([], 0)
    let vals := sorted.map (·.2)
    let variance := listMaxQ vals - listMinQ vals
    let rangePct : ℤ :=
      if 0 < listMaxQ vals then pyIntTrunc (variance / listMaxQ vals * 100) else 0
    if (3:ℚ)/10 < variance then [divRec b.2 w.2 variance rangePct] else []
  else []

def portSuccessRec (avg : ℚ) (rate : ℤ) (above total : Nat) : Insight :=
  { type := "success".data
  , title := "💰 Positive overall performance".data
  , description := "Your media mix generates on average $".data ++ fmtQ 2 avg ++
      " in revenue for every dollar invested. ".data ++ intToLc rate ++
      "% of your channels (".data ++ natToLc above ++ "/".data ++ natToLc total ++
      ") are profitable.".data
  , action := "Maintain this performance by continuing to optimize budgets toward the most performing channels and regularly testing new approaches.".data }

def portInfoRec (avg : ℚ) (rate : ℤ) (above total : Nat) : Insight :=
  { type := "info".data
  , title := "📊 Moderate overall performance".data
  , description := "Your media mix generates on average $".data ++ fmtQ 2 avg ++
      " in revenue for every dollar invested. ".data ++ intToLc rate ++
      "% of your channels (".data ++ natToLc above ++ "/".data ++ natToLc total ++
      ") are profitable.".data
  , action := "Optimize your budgets by reallocating to the most performing channels to improve the overall average to $".data ++
      fmtQ 2 (avg * (11/10 : ℚ)) ++ ".".data }

/-- Lines 558-578: the portfolio rule. -/
def portfolioInsights (roi : List (Str × Option ℚ)) : List Insight :=
  let valid := roi.filterMap (·.2)
  if roi ≠ [] ∧ valid.length > 0 then
    let avg := valid.sum / (valid.length : ℚ)
    let above := (valid.filter (fun r => (1:ℚ) < r)).length
    let total := valid.length
    let rate : ℤ :=
      if 0 < total then pyIntTrunc ((above : ℚ) / (total : ℚ) * 100) else 0
    if (6:ℚ)/5 < avg then [portSuccessRec avg rate above total]
    else if (1:ℚ) < avg then [portInfoRec avg rate above total]
    else []
  else []

/-- Lines 479-555: the three channel rules, guarded by the dict truthiness
check and the nonempty sorted list. -/
def channelInsights (roi : List (Str × Option ℚ)) : List Insight :=
  if roi = [] then []
  else
    let sorted := pySortDesc (presentPairs roi)
    if 0 < sorted.length then
      bestChannelInsights sorted ++ worstChannelInsights sorted ++ divInsights sorted
    else []

/-- `generate_marketing_insights(r2_score, roi_by_channel)`: the rules append
into one list in a fixed order. -/
def generate_marketing_insights (score : Option ℚ) (roi : List (Str × Option ℚ)) :
    List Insight :=
  fitScoreInsights score ++ channelInsights roi ++ portfolioInsights roi

/-! ### JSON values and the Python-semantics helpers used by the chart
transforms

`jMember`, `jSub`, `jSet`, `jGetOpt` and `jIterE` model the Python operators
`in`, subscript, subscript-assignment, `.get` and `for ... in` on a decoded
JSON value: a `TypeError`/`AttributeError`/`KeyError` is `Except.error ()`. -/

inductive Json where
  | null : Json
  | bool (b : Bool) : Json
  | num (q : ℚ) : Json
  | str (s : Str) : Json
  | arr (xs : List Json) : Json
  | obj (kvs : List (Str × Json)) : Json

/-- Python `key in value`. -/
def jMember (k : Str) : Json → Except Unit Bool
  | .obj kvs => .ok (lookupKV kvs k).isSome
  | .arr xs => .ok (xs.any fun x => match x with
      | .str s => decide (s = k)
      | _ => false)
  | .str s => .ok (containsSubL s k)
  | _ => .error ()

/-- Python `value[k]`. -/
def jSub (j : Json) (k : Str) : Except Unit Json :=
  match j with
  | .obj kvs =>
    match lookupKV kvs k with
    | some v => .ok v
    | none => .error ()
  | _ => .error ()

/-- Python `value[k] = v`. -/
def jSet (j : Json) (k : Str) (v : Json) : Except Unit Json :=
  match j with
  | .obj kvs => .ok (.obj (setKV kvs k v))
  | _ => .error ()

/-- Python `value.get(k)` / `value.get(k, default)` via `Option.getD`. -/
def jGetOpt (j : Json) (k : Str) : Except Unit (Option Json) :=
  match j with
  | .obj kvs => .ok (lookupKV kvs k)
  | _ => .error ()

/-- Python iteration `for x in value`: list elements, dict keys, or the
characters of a string (as one-character strings). -/
def jIterE : Json → Except Unit (List Json)
  | .arr xs => .ok xs
  | .obj kvs => .ok (kvs.map fun p => .str p.1)
  | .str s => .ok (s.map fun c => .str [c])
  | _ => .error ()

/-- Statement-side helper: key lookup on an object value, `none` otherwise. -/
def jGetObjOpt (j : Json) (k : Str) : Option Json :=
  match j with
  | .obj kvs => lookupKV kvs k
  | _ => none

/-! ### Escaped-literal decoding (lines 294-298 / 386-389) -/

def hexDigitVal (c : Char) : Option Nat :=
  let n := c.toNat
  if 48 ≤ n ∧ n ≤ 57 then some (n - 48)
  else if 97 ≤ n ∧ n ≤ 102 then some (n - 87)
  else if 65 ≤ n ∧ n ≤ 70 then some (n - 55)
  else none

def hexStrVal (s : Str) : Option Nat :=
  s.foldl (fun acc c => do
    let a ← acc
    let d ← hexDigitVal c
    some (a * 16 + d)) (some 0)

def isOctal (c : Char) : Bool := '0' ≤ c && c ≤ '7'

def octStrVal (s : Str) : Nat :=
  s.foldl (fun acc c => acc * 8 + (c.toNat - '0'.toNat)) 0

/-- Strict `codecs.decode(s, 'unicode_escape')`.  A character above U+00FF
fails the implicit latin-1 encoding step; `\x`, `\u`, `\U` with malformed
hex and a trailing lone backslash are decoding errors; an unrecognised
escape passes through unchanged.  `\N{...}` name escapes are modelled as
errors (the Unicode name database is outside the model). -/
def unicodeUnescapeF : Nat → Str → Option Str
  | 0, _ => none
  | _, [] => some []
  | fuel + 1, '\\' :: rest =>
    match rest with
    | [] => none
    | e :: r =>
      if e = 'n' then ('\n' :: ·) <$> unicodeUnescapeF fuel r
      else if e = 't' then ('\t' :: ·) <$> unicodeUnescapeF fuel r
      else if e = 'r' then ('\r' :: ·) <$> unicodeUnescapeF fuel r
      else if e = 'b' then ('\x08' :: ·) <$> unicodeUnescapeF fuel r
      else if e = 'f' then ('\x0c' :: ·) <$> unicodeUnescapeF fuel r
      else if e = 'v' then ('\x0b' :: ·) <$> unicodeUnescapeF fuel r
      else if e = 'a' then ('\x07' :: ·) <$> unicodeUnescapeF fuel r
      else if e = '\\' then ('\\' :: ·) <$> unicodeUnescapeF fuel r
      else if e = '\'' then ('\'' :: ·) <$> unicodeUnescapeF fuel r
      else if e = '"' then ('"' :: ·) <$> unicodeUnescapeF fuel r
      else if e = '\n' then unicodeUnescapeF fuel r
      else if isOctal e then
        let digs := e :: (r.take 2).takeWhile isOctal
        ((Char.ofNat (octStrVal digs)) :: ·) <$>
          unicodeUnescapeF fuel (r.drop ((r.take 2).takeWhile isOctal).length)
      else if e = 'x' then
        match hexStrVal (r.take 2) with
        | some n => if (r.take 2).length = 2 then
            (Char.ofNat n :: ·) <$> unicodeUnescapeF fuel (r.drop 2) else none
        | none => none
      else if e = 'u' then
        match hexStrVal (r.take 4) with
        | some n => if (r.take 4).length = 4 then
            (Char.ofNat n :: ·) <$> unicodeUnescapeF fuel (r.drop 4) else none
        | none => none
      else if e = 'U' then
        match hexStrVal (r.take 8) with
        | some n => if (r.take 8).length = 8 then
            (Char.ofNat n :: ·) <$> unicodeUnescapeF fuel (r.drop 8) else none
        | none => none
      else if e = 'N' then none
      else (fun l => '\\' :: e :: l) <$> unicodeUnescapeF fuel r
  | fuel + 1, c :: rest =>
    if c.toNat ≤ 0xff then (c :: ·) <$> unicodeUnescapeF fuel rest else none

def unicodeUnescape (s : Str) : Option Str := unicodeUnescapeF (s.length + 1) s

/-- The manual fallback decode of lines 298/389, exactly in source order:
`.replace('\\\\"', '"').replace('\\\\n', '\n').replace('\\\\\\\\', '\\')`,
i.e. double-backslash-escaped quotes, then double-backslash-escaped
newlines, then quadruple backslashes. -/
def manualUnescape (s : Str) : Str :=
  pyReplace
    (pyReplace
      (pyReplace s ['\\', '\\', '"'] ['"'])
      ['\\', '\\', 'n'] ['\n'])
    ['\\', '\\', '\\', '\\'] ['\\']

/-- The manual decode in the order the specification states it (backslashes,
then quotes, then newlines); written from the spec sentence, for comparison
with `manualUnescape`. -/
def manualUnescapeSpecOrder (s : Str) : Str :=
  pyReplace
    (pyReplace
      (pyReplace s ['\\', '\\', '\\', '\\'] ['\\'])
      ['\\', '\\', '"'] ['"'])
    ['\\', '\\', 'n'] ['\n']

/-- Strict decode with the manual fallback, never re-validated. -/
def decodeEscapedStr (esc : Str) : Str :=
  match unicodeUnescape esc with
  | some s => s
  | none => manualUnescape esc

/-- The re-escaping of line 337/436:
`.replace('\\', '\\\\').replace('"', '\\"').replace('\n', '\\n')`. -/
def escapeForEmbed (s : Str) : Str :=
  pyReplace (pyReplace (pyReplace s ['\\'] ['\\', '\\']) ['"'] ['\\', '"'])
    ['\n'] ['\\', 'n']

/-! ### json.loads / json.dumps at the interface level

`json.loads` is Python library code; it is modelled by a standard JSON
parser over the same grammar (strings with the JSON escapes, numbers with
optional fraction and exponent and no leading zeros, strict trailing-input
check; the non-standard `NaN`/`Infinity` extensions are not modelled and
parse as failures).  `json.dumps` uses the default separators `', '` and
`': '` and `ensure_ascii` escaping. -/

def jpSkipWs (s : Str) : Str :=
  s.dropWhile fun c => c = ' ' || c = '\t' || c = '\n' || c = '\r'

def jpString : Nat → Str → Option (Str × Str)
  | 0, _ => none
  | fuel + 1, s =>
    match s with
    | [] => none
    | '"' :: r => some ([], r)
    | '\\' :: e :: r =>
      if e = '"' then (fun p => ('"' :: p.1, p.2)) <$> jpString fuel r
      else if e = '\\' then (fun p => ('\\' :: p.1, p.2)) <$> jpString fuel r
      else if e = '/' then (fun p => ('/' :: p.1, p.2)) <$> jpString fuel r
      else if e = 'b' then (fun p => ('\x08' :: p.1, p.2)) <$> jpString fuel r
      else if e = 'f' then (fun p => ('\x0c' :: p.1, p.2)) <$> jpString fuel r
      else if e = 'n' then (fun p => ('\n' :: p.1, p.2)) <$> jpString fuel r
      else if e = 'r' then (fun p => ('\r' :: p.1, p.2)) <$> jpString fuel r
      else if e = 't' then (fun p => ('\t' :: p.1, p.2)) <$> jpString fuel r
      else if e = 'u' then
        match hexStrVal (r.take 4) with
        | some n =>
          if (r.take 4).length = 4 then
            (fun p => (Char.ofNat n :: p.1, p.2)) <$> jpString fuel (r.drop 4)
          else none
        | none => none
      else none
    | '\\' :: [] => none
    | c :: r =>
      if c.toNat < 0x20 then none
      else (fun p => (c :: p.1, p.2)) <$> jpString fuel r

def jpNum (s : Str) : Option (ℚ × Str) :=
  let sign : ℤ := if s.headD ' ' = '-' then -1 else 1
  let s1 := if s.headD ' ' = '-' then s.drop 1 else s
  let ip := s1.takeWhile Char.isDigit
  if ip = [] then none
  else if ip.headD ' ' = '0' ∧ ip.length ≠ 1 then none
  else
    let s2 := s1.drop ip.length
    let hasFrac := s2.headD ' ' = '.'
    let fp := if hasFrac then (s2.drop 1).takeWhile Char.isDigit else []
    if hasFrac ∧ fp = [] then none
    else
      let s3 := if hasFrac then s2.drop (1 + fp.length) else s2
      let hasExp := s3.headD ' ' = 'e' ∨ s3.headD ' ' = 'E'
      let s4 := if hasExp then s3.drop 1 else s3
      let expNeg := hasExp ∧ s4.headD ' ' = '-'
      let s5 := if hasExp ∧ (s4.headD ' ' = '-' ∨ s4.headD ' ' = '+') then s4.drop 1 else s4
      let ep := if hasExp then s5.takeWhile Char.isDigit else []
      if hasExp ∧ ep = [] then none
      else
        let rest := if hasExp then s5.drop ep.length else s3
        let mant : ℤ := sign * Int.ofNat (digitsToNat ip * 10 ^ fp.length + digitsToNat fp)
        let base := mkRat mant (10 ^ fp.length)
        let e := digitsToNat ep
        some ((if expNeg then base * mkRat 1 (10 ^ e)
               else base * mkRat (Int.ofNat (10 ^ e)) 1), rest)

mutual

def jpValue : Nat → Str → Option (Json × Str)
  | 0, _ => none
  | fuel + 1, s0 =>
    let s := jpSkipWs s0
    match s with
    | [] => none
    | '"' :: r => (fun p => (Json.str p.1, p.2)) <$> jpString (r.length + 1) r
    | '\x7b' :: r =>
      match jpSkipWs r with
      | '\x7d' :: r2 => some (Json.obj [], r2)
      | r1 => jpMembers fuel r1 []
    | '[' :: r =>
      match jpSkipWs r with
      | ']' :: r2 => some (Json.arr [], r2)
      | r1 => jpElems fuel r1 []
    | _ =>
      if startsWithL "true".data s then some (Json.bool true, s.drop 4)
      else if startsWithL "false".data s then some (Json.bool false, s.drop 5)
      else if startsWithL "null".data s then some (Json.null, s.drop 4)
      else (fun p => (Json.num p.1, p.2)) <$> jpNum s

def jpMembers : Nat → Str → List (Str × Json) → Option (Json × Str)
  | 0, _, _ => none
  | fuel + 1, s, acc =>
    match jpSkipWs s with
    | '"' :: r => do
      let (key, r1) ← jpString (r.length + 1) r
      match jpSkipWs r1 with
      | ':' :: r2 => do
        let (v, r3) ← jpValue fuel r2
        match jpSkipWs r3 with
        | ',' :: r4 => jpMembers fuel r4 (setKV acc key v)
        | '\x7d' :: r4 => some (Json.obj (setKV acc key v), r4)
        | _ => none
      | _ => none
    | _ => none

def jpElems : Nat → Str → List Json → Option (Json × Str)
  | 0, _, _ => none
  | fuel + 1, s, acc => do
    let (v, r) ← jpValue fuel s
    match jpSkipWs r with
    | ',' :: r2 => jpElems fuel r2 (acc ++ [v])
    | ']' :: r2 => some (Json.arr (acc ++ [v]), r2)
    | _ => none

end

/-- `json.loads` at the interface level. -/
def jsonParse (s : Str) : Option Json :=
  match jpValue (2 * s.length + 8) s with
  | some (j, rest) => if jpSkipWs rest = [] then some j else none
  | none => none

def hexDigits4 (n : Nat) : Str := padZeros 4 (Nat.toDigits 16 n)

def jsonEscChar (c : Char) : Str :=
  if c = '"' then ['\\', '"']
  else if c = '\\' then ['\\', '\\']
  else if c = '\n' then ['\\', 'n']
  else if c = '\r' then ['\\', 'r']
  else if c = '\t' then ['\\', 't']
  else if c.toNat = 8 then ['\\', 'b']
  else if c.toNat = 12 then ['\\', 'f']
  else if c.toNat < 0x20 then '\\' :: 'u' :: hexDigits4 c.toNat
  else if c.toNat < 0x7f then [c]
  else if c.toNat < 0x10000 then '\\' :: 'u' :: hexDigits4 c.toNat
  else
    let v := c.toNat - 0x10000
    ('\\' :: 'u' :: hexDigits4 (0xd800 + v / 0x400)) ++
      ('\\' :: 'u' :: hexDigits4 (0xdc00 + v % 0x400))

def jsonEscStr (s : Str) : Str := s.foldr (fun c acc => jsonEscChar c ++ acc) []

/-- Number of decimal digits needed for the fractional part of `q` (bounded
search; JSON-parsed rationals always have a power-of-ten denominator). -/
def decExpOf (q : ℚ) : Nat :=
  ((List.range 64).find? fun k => (q * mkRat (Int.ofNat (10 ^ k)) 1).den = 1).getD 0

/-- Decimal rendering of a rational whose denominator divides a power of
ten; integral values render without a fractional part. -/
def ratToDecStr (q : ℚ) : Str :=
  let k := decExpOf q
  let n := (q * mkRat (Int.ofNat (10 ^ k)) 1).num.natAbs
  (if q < 0 then ['-'] else []) ++
    (if k = 0 then natToLc n
     else natToLc (n / 10 ^ k) ++ '.' :: padZeros k (natToLc (n % 10 ^ k)))

mutual

def jsonDump : Json → Str
  | .null => "null".data
  | .bool b => if b then "true".data else "false".data
  | .num q => ratToDecStr q
  | .str s => '"' :: jsonEscStr s ++ ['"']
  | .arr xs => '[' :: jsonDumpElems xs ++ [']']
  | .obj kvs => '\x7b' :: jsonDumpMembers kvs ++ ['\x7d']

def jsonDumpElems : List Json → Str
  | [] => []
  | [x] => jsonDump x
  | x :: y :: rest => jsonDump x ++ ", ".data ++ jsonDumpElems (y :: rest)

def jsonDumpMembers : List (Str × Json) → Str
  | [] => []
  | [(k, v)] => '"' :: jsonEscStr k ++ "\": ".data ++ jsonDump v
  | (k, v) :: m :: rest =>
    '"' :: jsonEscStr k ++ "\": ".data ++ jsonDump v ++ ", ".data ++
      jsonDumpMembers (m :: rest)

end

/-! ### Python `str()` of a decoded JSON value (used by the contribution
palette remap); containers render their elements with `repr`-style quotes. -/

mutual

def pythonStr : Json → Str
  | .str s => s
  | j => pythonRepr j

def pythonRepr : Json → Str
  | .null => "None".data
  | .bool b => if b then "True".data else "False".data
  | .num q => ratToDecStr q
  | .str s => '\'' :: s ++ ['\'']
  | .arr xs => '[' :: pythonReprElems xs ++ [']']
  | .obj kvs => '\x7b' :: pythonReprMembers kvs ++ ['\x7d']

def pythonReprElems : List Json → Str
  | [] => []
  | [x] => pythonRepr x
  | x :: y :: rest => pythonRepr x ++ ", ".data ++ pythonReprElems (y :: rest)

def pythonReprMembers : List (Str × Json) → Str
  | [] => []
  | [(k, v)] => pythonRepr (.str k) ++ ": ".data ++ pythonRepr v
  | (k, v) :: m :: rest =>
    pythonRepr (.str k) ++ ": ".data ++ pythonRepr v ++ ", ".data ++
      pythonReprMembers (m :: rest)

end

/-! ### The model-fit spec transform (lines 393-433) -/

/-- Effectful map in `Except`, in source order. -/
def mapME {α β : Type} (f : α → Except Unit β) : List α → Except Unit (List β)
  | [] => .ok []
  | x :: rest => do
    let y ← f x
    let ys ← mapME f rest
    .ok (y :: ys)

/-- `item.get('type') != 'baseline'` is false exactly for an object whose
`"type"` field is the string `"baseline"`. -/
def noBaselineItem (it : Json) : Bool :=
  match it with
  | .obj kvs =>
    match lookupKV kvs "type".data with
    | some (.str s) => !(decide (s = "baseline".data))
    | _ => true
  | _ => true

/-- The dataset comprehension
`[item for item in dataset_data if item.get('type') != 'baseline']`:
`item.get` on a non-dict raises. -/
def filterBaselineItems : List Json → Except Unit (List Json)
  | [] => .ok []
  | it :: rest =>
    match it with
    | .obj _ => do
      let tail ← filterBaselineItems rest
      .ok (if noBaselineItem it then it :: tail else tail)
    | _ => .error ()

/-- Lines 394-399: drop baseline-typed entries from every named dataset. -/
def fitFilterDatasets (spec : Json) : Except Unit Json := do
  let hasDs ← jMember "datasets".data spec
  if hasDs then do
    let ds ← jSub spec "datasets".data
    match ds with
    | .obj entries => do
      let entries' ← mapME (fun p => do
        let items ← jIterE p.2
        let kept ← filterBaselineItems items
        pure (p.1, Json.arr kept)) entries
      jSet spec "datasets".data (.obj entries')
    | _ => .error ()
  else pure spec

/-- The keyword remap of the rebuilt model-fit range (line 414-420), totalised
for use in statements; inside the transform a non-string domain value is an
`AttributeError`. -/
def fitColor (d : Json) : Json :=
  match d with
  | .str s =>
    if containsSubL (toLowerL s) "expected".data then .str "#6366f1".data
    else if containsSubL (toLowerL s) "actual".data then .str "#10b981".data
    else .str "#6366f1".data
  | _ => .str "#6366f1".data

def mapFitColorE : List Json → Except Unit (List Json)
  | [] => .ok []
  | d :: rest =>
    match d with
    | .str _ => do
      let tail ← mapFitColorE rest
      .ok (fitColor d :: tail)
    | _ => .error ()

/-- Lines 425-430: after the optional `color_enc['value']` overwrite, update
the nested `condition.value` by keyword match on `condition.get('test')`. -/
def fitCondTail (ce1 : Json) : Except Unit Json := do
  let hasCond2 ← jMember "condition".data ce1
  let condHasVal ←
    if hasCond2 then do
      let cond ← jSub ce1 "condition".data
      jMember "value".data cond
    else pure false
  if hasCond2 && condHasVal then do
    let cond ← jSub ce1 "condition".data
    let testOpt ← jGetOpt cond "test".data
    match testOpt.getD (.str []) with
    | .str ts =>
      if containsSubL (toLowerL ts) "expected".data then do
        let cond' ← jSet cond "value".data (.str "#6366f1".data)
        jSet ce1 "condition".data cond'
      else if containsSubL (toLowerL ts) "actual".data then do
        let cond' ← jSet cond "value".data (.str "#10b981".data)
        jSet ce1 "condition".data cond'
      else pure ce1
    | _ => .error ()
  else pure ce1

/-- Lines 422-430: the `elif 'condition' in color_enc` fallback of the
model-fit color mutation, for encodings without a discrete scale. -/
def fitCondValueUpdate (ce : Json) : Except Unit Json := do
  let hasCond ← jMember "condition".data ce
  if hasCond then do
    let hasVal ← jMember "value".data ce
    let ce1 ← if hasVal then jSet ce "value".data (.str "#6366f1".data) else pure ce
    fitCondTail ce1
  else pure ce

/-- Lines 406-430: the per-color-encoding mutation for the model-fit chart. -/
def transformFitColorEnc (ce : Json) : Except Unit Json := do
  let hasScale ← jMember "scale".data ce
  let hasScaleDomain ←
    if hasScale then do
      let sc ← jSub ce "scale".data
      jMember "domain".data sc
    else pure false
  if hasScale && hasScaleDomain then do
    let sc ← jSub ce "scale".data
    let dom ← jSub sc "domain".data
    let delems ← jIterE dom
    let fdom := delems.filter fun d =>
      match d with
      | .str s => !(decide (s = "baseline".data))
      | _ => true
    let sc1 ← jSet sc "domain".data (.arr fdom)
    let hasRange ← jMember "range".data sc1
    let sc2 ←
      if hasRange then do
        let nr ← mapFitColorE fdom
        jSet sc1 "range".data (.arr (nr.take fdom.length))
      else pure sc1
    jSet ce "scale".data sc2
  else fitCondValueUpdate ce

/-- The shared `for layer in spec['layer']` body: mutate the color encoding
when `'encoding' in layer and 'color' in layer['encoding']`. -/
def transformLayerWith (f : Json → Except Unit Json) (layer : Json) :
    Except Unit Json := do
  let hasEnc ← jMember "encoding".data layer
  let hasColor ←
    if hasEnc then do
      let enc ← jSub layer "encoding".data
      jMember "color".data enc
    else pure false
  if hasEnc && hasColor then do
    let enc ← jSub layer "encoding".data
    let ce ← jSub enc "color".data
    let ce' ← f ce
    let enc' ← jSet enc "color".data ce'
    jSet layer "encoding".data enc'
  else pure layer

/-- The shared `if 'layer' in spec: for layer in spec['layer']: ...` loop;
iterating a dict or a string visits keys/characters, which are unchanged
(or raise) exactly as the per-layer body dictates. -/
def transformLayersWith (f : Json → Except Unit Json) (spec : Json) :
    Except Unit Json := do
  let hasLayer ← jMember "layer".data spec
  if hasLayer then do
    let lv ← jSub spec "layer".data
    match lv with
    | .arr ls => do
      let ls' ← mapME (transformLayerWith f) ls
      jSet spec "layer".data (.arr ls')
    | .obj kvs => do
      let _ ← mapME (fun p => transformLayerWith f (.str p.1)) kvs
      pure spec
    | .str s => do
      let _ ← mapME (fun c => transformLayerWith f (.str [c])) s
      pure spec
    | _ => .error ()
  else pure spec

/-- `if 'title' in spec: spec['title'] = None`. -/
def clearTitle (spec : Json) : Except Unit Json := do
  let hasTitle ← jMember "title".data spec
  if hasTitle then jSet spec "title".data .null else pure spec

/-- The complete model-fit spec mutation of lines 393-433: dataset filtering,
layer color updates, title clearing. -/
def transform_model_fit_spec (spec : Json) : Except Unit Json := do
  let s1 ← fitFilterDatasets spec
  let s2 ← transformLayersWith transformFitColorEnc s1
  clearTitle s2

/-! ### The contribution-channel spec transform (lines 302-334) -/

/-- The fixed keyword→color table of lines 314-319, applied by substring
match on `str(domain_val).upper()` in dict-literal order, with the indigo
default. -/
def contribColorFor (d : Json) : Json :=
  let u := toUpperL (pythonStr d)
  if containsSubL u "BASELINE".data then .str "#8b5cf6".data
  else if containsSubL u "FACEBOOK".data then .str "#6366f1".data
  else if containsSubL u "GOOGLE ADS".data then .str "#818cf8".data
  else if containsSubL u "TIKTOK".data then .str "#10b981".data
  else .str "#6366f1".data

/-- Lines 307-331: the per-color-encoding mutation for the contribution
chart. -/
def transformContribColorEnc (ce : Json) : Except Unit Json := do
  let hasCond ← jMember "condition".data ce
  if hasCond then do
    let cond0 ← jSub ce "condition".data
    let hasTest ← jMember "test".data cond0
    let baselineInTest ←
      if hasTest then do
        let cond1 ← jSub ce "condition".data
        let testv ← jSub cond1 "test".data
        jMember "BASELINE".data testv
      else pure false
    let ce1 ←
      if hasTest && baselineInTest then do
        let cond2 ← jSub ce "condition".data
        let cond' ← jSet cond2 "value".data (.str "#8b5cf6".data)
        jSet ce "condition".data cond'
      else pure ce
    let hasVal ← jMember "value".data ce1
    if hasVal then jSet ce1 "value".data (.str "#6366f1".data) else pure ce1
  else do
    let hasScale ← jMember "scale".data ce
    let hasRange ←
      if hasScale then do
        let sc ← jSub ce "scale".data
        jMember "range".data sc
      else pure false
    if hasScale && hasRange then do
      let sc ← jSub ce "scale".data
      let domOpt ← jGetOpt sc "domain".data
      let delems ← jIterE (domOpt.getD (.arr []))
      let newRange := delems.map contribColorFor
      if !newRange.isEmpty then do
        let sc' ← jSet sc "range".data (.arr newRange)
        jSet ce "scale".data sc'
      else pure ce
    else pure ce

/-- The complete contribution spec mutation of lines 302-334. -/
def transform_contribution_spec (spec : Json) : Except Unit Json := do
  let s1 ← transformLayersWith transformContribColorEnc spec
  clearTitle s1

/-! ### Chart-block location and the two extraction pipelines -/

def fitMarker : Str := "expected-actual-outcome-chart".data

def contribMarker : Str := "channel-drivers-chart".data

/-- Lines 271-286 / 363-378: first marker occurrence, nearest `<chart>` (or
`<chart-embed`) before it, nearest `</script>` after it, inclusive slice. -/
def locateChartSection (marker : Str) (t : Str) : Option Str :=
  match findSubIdx marker t with
  | none => none
  | some pos =>
    let start? :=
      match rfindSubBefore "<chart>".data t pos with
      | some st => some st
      | none => rfindSubBefore "<chart-embed".data t pos
    match start? with
    | none => none
    | some start =>
      match findSubFromIdx "</script>".data t pos with
      | none => none
      | some e => some (sliceL t start (e + "</script>".data.length))

/-- The regex `const spec = JSON\.parse\("(.*?)"\);` (DOTALL): the literal
head, then the lazy capture up to the first following `");`. -/
def findSpecLiteral (sec : Str) : Option Str :=
  match findSubIdx "const spec = JSON.parse(\"".data sec with
  | none => none
  | some p =>
    let after := sec.drop (p + "const spec = JSON.parse(\"".data.length)
    match findSubIdx "\");".data after with
    | none => none
    | some q => some (after.take q)

/-- `re.sub(r'<chart-description>.*?</chart-description>', '', s, DOTALL)`:
remove every non-greedy open/close span, scanning left to right. -/
def stripChartDescriptions : Nat → Str → Str
  | 0, s => s
  | fuel + 1, s =>
    match findSubIdx "<chart-description>".data s with
    | none => s
    | some p =>
      let after := s.drop (p + "<chart-description>".data.length)
      match findSubIdx "</chart-description>".data after with
      | none => s
      | some q =>
        s.take p ++
          stripChartDescriptions fuel (after.drop (q + "</chart-description>".data.length))

/-- Lines 289-338 / 380-437: decode the embedded escaped spec, parse it,
transform it, re-serialise, re-escape and substitute; a missing literal
skips the spec mutation, a `json.loads` failure raises. -/
def editSpecLiteral (transform : Json → Except Unit Json) (sec : Str) :
    Except Unit Str :=
  match findSpecLiteral sec with
  | none => .ok sec
  | some esc =>
    match jsonParse (decodeEscapedStr esc) with
    | none => .error ()
    | some spec => do
      let spec' ← transform spec
      .ok (pyReplace sec esc (escapeForEmbed (jsonDump spec')))

/-- The body of `extract_model_fit_chart_html` with the `try` removed:
`.ok none` is a normal absent return, `.error ()` an exception. -/
def modelFitPipeline (t : Str) : Except Unit (Option Str) :=
  match locateChartSection fitMarker t with
  | none => .ok none
  | some sec => do
    let s1 ← editSpecLiteral transform_model_fit_spec sec
    let s2 := stripChartDescriptions s1.length s1
    let s3 := pyReplace s2 "id=\"expected-actual-outcome-chart\"".data
      "id=\"model-fit-chart\"".data
    let s4 := pyReplace s3 "#expected-actual-outcome-chart".data
      "#model-fit-chart".data
    let s5 := pyReplace s4 "expected-actual-outcome-chart".data
      "model-fit-chart".data
    .ok (some s5)

/-- The body of `extract_contribution_channel_chart_html` with the `try`
removed. -/
def contributionPipeline (t : Str) : Except Unit (Option Str) :=
  match locateChartSection contribMarker t with
  | none => .ok none
  | some sec => do
    let s1 ← editSpecLiteral transform_contribution_spec sec
    let s2 := stripChartDescriptions s1.length s1
    let s3 := pyReplace s2 "id=\"channel-drivers-chart\"".data
      "id=\"contribution-channel-chart\"".data
    let s4 := pyReplace s3 "#channel-drivers-chart".data
      "#contribution-channel-chart".data
    let s5 := pyReplace s4 "channel-drivers-chart".data
      "contribution-channel-chart".data
    .ok (some s5)

/-- `extract_model_fit_chart_html`: missing file (`none` input) and every
exception resolve to an absent result. -/
def extract_model_fit_chart_html (file : Option Str) : Option Str :=
  match file with
  | none => none
  | some t =>
    match modelFitPipeline t with
    | .ok r => r
    | .error _ => none

/-- `extract_contribution_channel_chart_html`: same failure policy. -/
def extract_contribution_channel_chart_html (file : Option Str) : Option Str :=
  match file with
  | none => none
  | some t =>
    match contributionPipeline t with
    | .ok r => r
    | .error _ => none

/-! ## Claims -/

/-- Claim C1: for every input report text (including missing files, text
with no markers, and text with malformed embedded JSON), the four
extraction/transformation operations never surface an exception: a missing
file gives an absent fit score, an empty ROI mapping and absent chart
blocks; an absent marker gives an absent chart block; and any exception
inside a chart-block pipeline (`Except.error`, e.g. malformed embedded
JSON) gives an absent block rather than partially-mutated text. -/
theorem claim_C1 :
    (extract_r2_from_html none = none ∧ extract_roi_by_channel none = [] ∧
      extract_model_fit_chart_html none = none ∧
      extract_contribution_channel_chart_html none = none) ∧
    (∀ t : Str, findSubIdx fitMarker t = none →
      extract_model_fit_chart_html (some t) = none) ∧
    (∀ t : Str, findSubIdx contribMarker t = none →
      extract_contribution_channel_chart_html (some t) = none) ∧
    (∀ t : Str, modelFitPipeline t = Except.error () →
      extract_model_fit_chart_html (some t) = none) ∧
    (∀ t : Str, contributionPipeline t = Except.error () →
      extract_contribution_channel_chart_html (some t) = none) := by
  refine ⟨⟨rfl, rfl, rfl, rfl⟩, ?_, ?_, ?_, ?_⟩
  · intro t h
    simp [extract_model_fit_chart_html, modelFitPipeline, locateChartSection, h]
  · intro t h
    simp [extract_contribution_channel_chart_html, contributionPipeline,
      locateChartSection, h]
  · intro t h
    simp [extract_model_fit_chart_html, h]
  · intro t h
    simp [extract_contribution_channel_chart_html, h]

theorem claim_C1_witness :
    (findSubIdx fitMarker "no marker here".data = none ∧
      extract_model_fit_chart_html (some "no marker here".data) = none) ∧
    (findSubIdx contribMarker "no marker here".data = none ∧
      extract_contribution_channel_chart_html (some "no marker here".data) = none) ∧
    (modelFitPipeline
        "<chart>expected-actual-outcome-chart const spec = JSON.parse(\"x\"); </script>".data =
      Except.error () ∧
      extract_model_fit_chart_html
        (some "<chart>expected-actual-outcome-chart const spec = JSON.parse(\"x\"); </script>".data) =
      none) ∧
    (contributionPipeline
        "<chart>channel-drivers-chart const spec = JSON.parse(\"x\"); </script>".data =
      Except.error () ∧
      extract_contribution_channel_chart_html
        (some "<chart>channel-drivers-chart const spec = JSON.parse(\"x\"); </script>".data) =
      none) :=
  ⟨⟨by decide, claim_C1.2.1 _ (by decide)⟩,
   ⟨by decide, claim_C1.2.2.1 _ (by decide)⟩,
   ⟨by rfl, claim_C1.2.2.2.1 _ (by rfl)⟩,
   ⟨by rfl, claim_C1.2.2.2.2 _ (by rfl)⟩⟩

/-- Claim C8 (corrected): the claim states the fallback manual decode
reverses backslash-escaped backslashes, then quotes, then newlines, in that
order; the code (lines 298/389) performs the replacements in the order
quotes, newlines, backslashes, and the two orders disagree, e.g. on
`\xZZ\\\\n`. -/
theorem claim_C8_counterexample :
    unicodeUnescape ['\\', 'x', 'Z', 'Z', '\\', '\\', '\\', '\\', 'n'] = none ∧
    decodeEscapedStr ['\\', 'x', 'Z', 'Z', '\\', '\\', '\\', '\\', 'n'] ≠
      manualUnescapeSpecOrder ['\\', 'x', 'Z', 'Z', '\\', '\\', '\\', '\\', 'n'] := by
  constructor
  · decide
  · decide

/-- Claim C8 (amended): for every embedded escaped literal that fails strict
unicode-escape decoding, the fallback manual decode is used without
re-validation and reverses double-backslash-escaped quotes, then
double-backslash-escaped newlines, then quadruple backslashes, in that
order. -/
theorem claim_C8 :
    ∀ esc : Str, unicodeUnescape esc = none →
      decodeEscapedStr esc = manualUnescape esc ∧
      manualUnescape esc =
        pyReplace
          (pyReplace (pyReplace esc ['\\', '\\', '"'] ['"']) ['\\', '\\', 'n'] ['\n'])
          ['\\', '\\', '\\', '\\'] ['\\'] := by
  intro esc h
  exact ⟨by simp [decodeEscapedStr, h], rfl⟩

theorem claim_C8_witness :
    unicodeUnescape ['\\', 'x', 'Z', 'Z'] = none ∧
    decodeEscapedStr ['\\', 'x', 'Z', 'Z'] = manualUnescape ['\\', 'x', 'Z', 'Z'] :=
  ⟨by decide, (claim_C8 ['\\', 'x', 'Z', 'Z'] (by decide)).1⟩

/-! ### Substring-containment lemmas -/

theorem startsWithL_self_append (pat b : Str) : startsWithL pat (pat ++ b) = true := by
  induction pat with
  | nil => rfl
  | cons c t ih => simp [startsWithL, ih]

theorem containsSubL_here (pat b : Str) : containsSubL (pat ++ b) pat = true := by
  unfold containsSubL
  cases hpb : pat ++ b with
  | nil =>
    have hp : pat = [] := by
      cases pat with
      | nil => rfl
      | cons c t => simp at hpb
    simp [findSubIdx, hp]
  | cons c cs =>
    rw [← hpb]
    have hs := startsWithL_self_append pat b
    unfold findSubIdx
    rw [hpb] at hs ⊢
    simp [hs]

theorem containsSubL_cons (c : Char) (s pat : Str)
    (h : containsSubL s pat = true) : containsSubL (c :: s) pat = true := by
  unfold containsSubL findSubIdx
  split
  · rfl
  · cases hf : findSubIdx pat s with
    | none => rw [containsSubL, hf] at h; simp at h
    | some i => simp

theorem containsSubL_append_of (a b pat : Str)
    (h : containsSubL b pat = true) : containsSubL (a ++ b) pat = true := by
  induction a with
  | nil => simpa using h
  | cons c t ih => exact containsSubL_cons _ _ _ ih

theorem startsWithL_self (pat : Str) : startsWithL pat pat = true := by
  have h := startsWithL_self_append pat []
  simpa using h

theorem containsSubL_self (pat : Str) : containsSubL pat pat = true := by
  have h := containsSubL_here pat []
  simpa using h

theorem containsSubL_nil_pat (s : Str) : containsSubL s [] = true := by
  cases s <;> simp [containsSubL, findSubIdx, startsWithL]

theorem startsWithL_append_ext (pat s b : Str)
    (h : startsWithL pat s = true) : startsWithL pat (s ++ b) = true := by
  induction pat generalizing s with
  | nil => rfl
  | cons p ps ih =>
    cases s with
    | nil => simp [startsWithL] at h
    | cons c cs =>
      simp only [startsWithL, Bool.and_eq_true, decide_eq_true_eq] at h
      simp [startsWithL, h.1, ih cs h.2]

theorem containsSubL_append_left (a b pat : Str)
    (h : containsSubL a pat = true) : containsSubL (a ++ b) pat = true := by
  induction a with
  | nil =>
    have hp : pat = [] := by
      by_contra hne
      cases pat with
      | nil => exact hne rfl
      | cons p ps => simp [containsSubL, findSubIdx, hne] at h
    subst hp
    exact containsSubL_nil_pat b
  | cons c t ih =>
    rw [containsSubL, findSubIdx] at h
    by_cases hs : startsWithL pat (c :: t) = true
    · rw [List.cons_append, containsSubL, findSubIdx]
      have hs2 : startsWithL pat (c :: (t ++ b)) = true :=
        startsWithL_append_ext pat (c :: t) b hs
      rw [if_pos hs2]
      rfl
    · rw [if_neg (by simpa using hs)] at h
      have ht : containsSubL t pat = true := by
        rw [containsSubL]
        cases hf : findSubIdx pat t with
        | none => rw [hf] at h; simp at h
        | some i => rfl
      exact containsSubL_cons c (t ++ b) pat (ih ht)

/-- Claim C6: the fit-score rule of `generate_marketing_insights`.  An
absent score or a score at least 3/4 emits nothing; a score in [1/2, 3/4)
emits exactly one `warning` record whose description contains the score to
three decimal places and the improvement-potential integer
`⌊(3/4 − score) · 100⌋`; a score below 1/2 emits exactly one `danger`
record with the improvement-needed integer `⌊(1/2 − score) · 100⌋`; and the
fit-score records precede every channel-derived record in the output. -/
theorem claim_C6 :
    fitScoreInsights none = [] ∧
    (∀ s : ℚ, (3:ℚ)/4 ≤ s → fitScoreInsights (some s) = []) ∧
    (∀ s : ℚ, (1:ℚ)/2 ≤ s → s < (3:ℚ)/4 →
      fitScoreInsights (some s) = [fitWarnRec s] ∧
      (fitWarnRec s).type = "warning".data ∧
      containsSubL (fitWarnRec s).description (fmtQ 3 s) = true ∧
      containsSubL (fitWarnRec s).description
        (intToLc (pyIntTrunc (((3:ℚ)/4 - s) * 100))) = true ∧
      pyIntTrunc (((3:ℚ)/4 - s) * 100) = ⌊((3:ℚ)/4 - s) * 100⌋) ∧
    (∀ s : ℚ, s < (1:ℚ)/2 →
      fitScoreInsights (some s) = [fitDangerRec s] ∧
      (fitDangerRec s).type = "danger".data ∧
      containsSubL (fitDangerRec s).description (fmtQ 3 s) = true ∧
      containsSubL (fitDangerRec s).description
        (intToLc (pyIntTrunc (((1:ℚ)/2 - s) * 100))) = true ∧
      pyIntTrunc (((1:ℚ)/2 - s) * 100) = ⌊((1:ℚ)/2 - s) * 100⌋) ∧
    (∀ (score : Option ℚ) (roi : List (Str × Option ℚ)),
      generate_marketing_insights score roi =
        fitScoreInsights score ++ channelInsights roi ++ portfolioInsights roi) := by
  have hfit : ∀ s : ℚ, fitScoreInsights (some s) =
      if (3:ℚ)/4 ≤ s then []
      else if (1:ℚ)/2 ≤ s then [fitWarnRec s] else [fitDangerRec s] :=
    fun s => rfl
  refine ⟨rfl, ?_, ?_, ?_, fun _ _ => rfl⟩
  · intro s h
    rw [hfit, if_pos h]
  · intro s h1 h2
    have hq : (0:ℚ) ≤ ((3:ℚ)/4 - s) * 100 := by nlinarith
    refine ⟨by rw [hfit, if_neg (not_le.mpr h2), if_pos h1], rfl, ?_, ?_, ?_⟩
    · exact containsSubL_append_left _ _ _ (containsSubL_append_left _ _ _
        (containsSubL_append_left _ _ _ (containsSubL_append_of _ _ _
          (containsSubL_self _))))
    · exact containsSubL_append_left _ _ _ (containsSubL_append_of _ _ _
        (containsSubL_self _))
    · unfold pyIntTrunc
      rw [if_pos hq]
  · intro s h
    have h2 : ¬ ((3:ℚ)/4 ≤ s) := by
      intro hc
      nlinarith
    have hq : (0:ℚ) ≤ ((1:ℚ)/2 - s) * 100 := by nlinarith
    refine ⟨by rw [hfit, if_neg h2, if_neg (not_le.mpr h)], rfl, ?_, ?_, ?_⟩
    · exact containsSubL_append_left _ _ _ (containsSubL_append_left _ _ _
        (containsSubL_append_left _ _ _ (containsSubL_append_of _ _ _
          (containsSubL_self _))))
    · exact containsSubL_append_left _ _ _ (containsSubL_append_of _ _ _
        (containsSubL_self _))
    · unfold pyIntTrunc
      rw [if_pos hq]

theorem claim_C6_witness :
    fitScoreInsights (some ((4:ℚ)/5)) = [] ∧
    fitScoreInsights (some ((3:ℚ)/5)) = [fitWarnRec ((3:ℚ)/5)] ∧
    containsSubL (fitWarnRec ((3:ℚ)/5)).description (fmtQ 3 ((3:ℚ)/5)) = true ∧
    pyIntTrunc (((3:ℚ)/4 - (3:ℚ)/5) * 100) = ⌊((3:ℚ)/4 - (3:ℚ)/5) * 100⌋ ∧
    fitScoreInsights (some ((1:ℚ)/4)) = [fitDangerRec ((1:ℚ)/4)] :=
  ⟨claim_C6.2.1 _ (by decide),
   (claim_C6.2.2.1 _ (by decide) (by decide)).1,
   (claim_C6.2.2.1 ((3:ℚ)/5) (by decide) (by decide)).2.2.1,
   (claim_C6.2.2.1 ((3:ℚ)/5) (by decide) (by decide)).2.2.2.2,
   (claim_C6.2.2.2.1 _ (by decide)).1⟩

/-! ### Sortedness of the descending channel sort -/

def sortedDescQ (l : List (Str × ℚ)) : Prop :=
  List.Chain' (fun a b => b.2 ≤ a.2) l

theorem insertLater_ne_nil (x : Str × ℚ) (l : List (Str × ℚ)) :
    insertLater x l ≠ [] := by
  cases l with
  | nil => simp [insertLater]
  | cons y ys =>
    by_cases h : y.2 < x.2 <;> simp [insertLater, h]

theorem insertLater_headD2 (x : Str × ℚ) (l : List (Str × ℚ)) (d : Str × ℚ) :
    ((insertLater x l).headD d).2 = max x.2 ((l.headD x).2) := by
  cases l with
  | nil => simp [insertLater]
  | cons y ys =>
    by_cases h : y.2 < x.2
    · simp [insertLater, h, max_eq_left h.le]
    · simp [insertLater, h, max_eq_right (not_lt.mp h)]

theorem insertLater_sorted (x : Str × ℚ) :
    ∀ l : List (Str × ℚ), sortedDescQ l → sortedDescQ (insertLater x l) := by
  intro l
  induction l with
  | nil => intro _; simp [insertLater, sortedDescQ]
  | cons y ys ih =>
    intro h
    rw [sortedDescQ, List.chain'_cons'] at h
    by_cases hxy : y.2 < x.2
    · show sortedDescQ (if y.2 < x.2 then x :: y :: ys else y :: insertLater x ys)
      rw [if_pos hxy]
      rw [sortedDescQ, List.chain'_cons]
      exact ⟨hxy.le, (List.chain'_cons'.mpr h : List.Chain' _ (y :: ys))⟩
    · show sortedDescQ (if y.2 < x.2 then x :: y :: ys else y :: insertLater x ys)
      rw [if_neg hxy]
      rw [sortedDescQ, List.chain'_cons']
      refine ⟨?_, ih h.2⟩
      intro b hb
      have hne := insertLater_ne_nil x ys
      have hb2 : b = (insertLater x ys).headD b := by
        cases hil : insertLater x ys with
        | nil => exact absurd hil hne
        | cons z zs =>
          rw [hil] at hb
          simp at hb
          simp [hb]
      rw [hb2, insertLater_headD2]
      have h1 : x.2 ≤ y.2 := not_lt.mp hxy
      have h2 : (ys.headD x).2 ≤ y.2 := by
        cases ys with
        | nil => simpa using h1
        | cons z zs => exact h.1 z rfl
      exact max_le h1 h2

theorem pySortDesc_sorted (l : List (Str × ℚ)) : sortedDescQ (pySortDesc l) := by
  have key : ∀ (m : List (Str × ℚ)) (acc : List (Str × ℚ)), sortedDescQ acc →
      sortedDescQ (m.foldl (fun a x => insertLater x a) acc) := by
    intro m
    induction m with
    | nil => intro acc h; exact h
    | cons x t ih => intro acc h; exact ih _ (insertLater_sorted x acc h)
  exact key l [] (by simp [sortedDescQ])

theorem getLast_cons_exists {α : Type} (y : α) (l : List α) :
    ∃ v, (y :: l).getLast? = some v := by
  induction l generalizing y with
  | nil => exact ⟨y, rfl⟩
  | cons z zs ih =>
    obtain ⟨v, hv⟩ := ih z
    exact ⟨v, by rw [List.getLast?_cons_cons, hv]⟩

theorem sorted_last_le_head :
    ∀ (l : List (Str × ℚ)) (d : Str × ℚ), sortedDescQ l →
      (l.getLastD d).2 ≤ (l.headD d).2 := by
  intro l
  induction l with
  | nil => intro d _; simp
  | cons x rest ih =>
    intro d h
    cases rest with
    | nil => simp
    | cons y rest2 =>
      rw [sortedDescQ, List.chain'_cons] at h
      have htail := ih x (h.2 : sortedDescQ (y :: rest2))
      obtain ⟨v, hv⟩ := getLast_cons_exists y rest2
      calc ((x :: y :: rest2).getLastD d).2
          = ((y :: rest2).getLastD x).2 := by
            rw [List.getLastD_eq_getLast?, List.getLastD_eq_getLast?,
              List.getLast?_cons_cons, hv]
            rfl
        _ ≤ ((y :: rest2).headD x).2 := htail
        _ = y.2 := rfl
        _ ≤ x.2 := h.1
        _ = ((x :: y :: rest2).headD d).2 := rfl

theorem worstChannelInsights_eq (sorted : List (Str × ℚ)) :
    worstChannelInsights sorted =
      if 1 < sorted.length then
        if (if 0 < (sorted.headD ([], 0)).2
            then (sorted.getLastD ([], 0)).2 / (sorted.headD ([], 0)).2 else 0) <
            (7:ℚ)/10 then
          [worstRec (sorted.headD ([], 0)).1 (sorted.getLastD ([], 0)).1
            (sorted.headD ([], 0)).2 (sorted.getLastD ([], 0)).2
            ((sorted.headD ([], 0)).2 - (sorted.getLastD ([], 0)).2)
            (if 0 < (sorted.headD ([], 0)).2
             then (sorted.getLastD ([], 0)).2 / (sorted.headD ([], 0)).2 else 0)]
        else []
      else [] := rfl

theorem clampZ_min_then_floor (lo hi p : ℤ) :
    (if min hi p < lo then lo else min hi p) = max lo (min hi p) := by
  rcases le_or_lt lo (min hi p) with h | h
  · rw [if_neg (not_lt.mpr h), max_eq_right h]
  · rw [if_pos h, max_eq_left h.le]

/-- Claim C7: the worst-channel rule.  With fewer than two channels having a
present ROI value no worst-channel insight is emitted; with at least two,
the insight is emitted exactly when `ratio < 7/10`, where best/worst are the
top/bottom of the stable descending sort and
`ratio = worst.roi / best.roi` (0 when `best.roi ≤ 0`); the emitted record
is a `warning` whose reduction percentage is
`clamp(⌊(1 − ratio)·50⌋, 15, 40)` and whose reallocation percentage is
`clamp(⌊(best.roi − worst.roi)·25⌋, 20, 35)`. -/
theorem claim_C7 :
    ∀ (roi : List (Str × Option ℚ)) (sorted : List (Str × ℚ)),
      sorted = pySortDesc (presentPairs roi) →
      (∀ score, generate_marketing_insights score roi =
        fitScoreInsights score ++ channelInsights roi ++ portfolioInsights roi) ∧
      (sorted.length < 2 → worstChannelInsights sorted = []) ∧
      (2 ≤ sorted.length →
        channelInsights roi =
          bestChannelInsights sorted ++ worstChannelInsights sorted ++
            divInsights sorted ∧
        ∀ b w ratio, b = sorted.headD ([], 0) → w = sorted.getLastD ([], 0) →
          ratio = (if 0 < b.2 then w.2 / b.2 else 0) →
          (ratio < (7:ℚ)/10 →
            worstChannelInsights sorted =
              [worstRec b.1 w.1 b.2 w.2 (b.2 - w.2) ratio] ∧
            (worstRec b.1 w.1 b.2 w.2 (b.2 - w.2) ratio).type = "warning".data ∧
            worstReductionPct ratio = max 15 (min 40 ⌊(1 - ratio) * 50⌋) ∧
            worstReallocPct (b.2 - w.2) = max 20 (min 35 ⌊(b.2 - w.2) * 25⌋)) ∧
          ((7:ℚ)/10 ≤ ratio → worstChannelInsights sorted = [])) := by
  intro roi sorted hsorted
  refine ⟨fun _ => rfl, ?_, ?_⟩
  · intro hlt
    rw [worstChannelInsights_eq, if_neg (by omega)]
  · intro h2
    have hroine : roi ≠ [] := by
      intro he
      subst he
      simp [pySortDesc, presentPairs] at hsorted
      subst hsorted
      simp at h2
    constructor
    · show channelInsights roi = _
      unfold channelInsights
      rw [if_neg hroine, ← hsorted, if_pos (by omega)]
    · intro b w ratio hb hw hratio
      have hwb : w.2 ≤ b.2 := by
        rw [hb, hw, hsorted]
        exact sorted_last_le_head _ _ (pySortDesc_sorted _)
      constructor
      · intro hr
        refine ⟨?_, rfl, ?_, ?_⟩
        · rw [worstChannelInsights_eq, if_pos (by omega), ← hb, ← hw, ← hratio,
            if_pos hr]
        · have hnn : (0:ℚ) ≤ (1 - ratio) * 50 := by nlinarith
          have hfl : pyIntTrunc ((1 - ratio) * 50) = ⌊(1 - ratio) * 50⌋ := by
            unfold pyIntTrunc
            rw [if_pos hnn]
          unfold worstReductionPct
          rw [hfl]
          exact clampZ_min_then_floor 15 40 _
        · have hnn : (0:ℚ) ≤ (b.2 - w.2) * 25 := by nlinarith
          have hfl : pyIntTrunc ((b.2 - w.2) * 25) = ⌊(b.2 - w.2) * 25⌋ := by
            unfold pyIntTrunc
            rw [if_pos hnn]
          unfold worstReallocPct
          rw [hfl]
          exact clampZ_min_then_floor 20 35 _
      · intro hr
        rw [worstChannelInsights_eq, if_pos (by omega), ← hb, ← hw, ← hratio,
          if_neg (not_lt.mpr hr)]

theorem claim_C7_witness :
    (worstChannelInsights (pySortDesc (presentPairs
      [("A".data, some (2:ℚ)), ("B".data, some ((1:ℚ)/2))]))).length = 1 ∧
    (worstChannelInsights (pySortDesc (presentPairs
      [("A".data, some (2:ℚ))]))).length = 0 := by
  constructor
  · have h := ((claim_C7 [("A".data, some (2:ℚ)), ("B".data, some ((1:ℚ)/2))]
      (pySortDesc (presentPairs [("A".data, some (2:ℚ)), ("B".data, some ((1:ℚ)/2))]))
      rfl).2.2 (by decide)).2 _ _ _ rfl rfl rfl
    rw [(h.1 (by decide)).1]
    rfl
  · have h := (claim_C7 [("A".data, some (2:ℚ))]
      (pySortDesc (presentPairs [("A".data, some (2:ℚ))])) rfl).2.1 (by decide)
    rw [h]
    rfl

/-! ### Record well-formedness -/

def insightOK (rec : Insight) : Prop :=
  (rec.type = "success".data ∨ rec.type = "info".data ∨
    rec.type = "warning".data ∨ rec.type = "danger".data) ∧
  rec.title ≠ [] ∧ rec.description ≠ [] ∧ rec.action ≠ []

theorem ne_nil_left (a b : Str) (h : a ≠ []) : a ++ b ≠ [] := by
  intro hc
  exact h (List.append_eq_nil.mp hc).1

theorem fitScoreInsights_some_eq (s : ℚ) :
    fitScoreInsights (some s) =
      if (3:ℚ)/4 ≤ s then []
      else if (1:ℚ)/2 ≤ s then [fitWarnRec s] else [fitDangerRec s] := rfl

theorem fitScoreInsights_ok (sc : Option ℚ) :
    (fitScoreInsights sc).length ≤ 1 ∧ ∀ rec ∈ fitScoreInsights sc, insightOK rec := by
  cases sc with
  | none => simp [fitScoreInsights]
  | some s =>
    rw [fitScoreInsights_some_eq]
    by_cases h1 : (3:ℚ)/4 ≤ s
    · rw [if_pos h1]
      simp
    · rw [if_neg h1]
      by_cases h2 : (1:ℚ)/2 ≤ s
      · rw [if_pos h2]
        refine ⟨by simp, ?_⟩
        intro rec hrec
        rw [List.mem_singleton.mp hrec]
        refine ⟨Or.inr (Or.inr (Or.inl rfl)), ?_, ?_, ?_⟩ <;>
          · simp only [fitWarnRec]
            first
            | decide
            | ((repeat apply ne_nil_left); decide)
      · rw [if_neg h2]
        refine ⟨by simp, ?_⟩
        intro rec hrec
        rw [List.mem_singleton.mp hrec]
        refine ⟨Or.inr (Or.inr (Or.inr rfl)), ?_, ?_, ?_⟩ <;>
          · simp only [fitDangerRec]
            first
            | decide
            | ((repeat apply ne_nil_left); decide)

theorem bestChannelInsights_ok (l : List (Str × ℚ)) :
    (bestChannelInsights l).length ≤ 1 ∧ ∀ rec ∈ bestChannelInsights l, insightOK rec := by
  cases l with
  | nil => simp [bestChannelInsights]
  | cons p rest =>
    obtain ⟨bc, br⟩ := p
    have heq : bestChannelInsights ((bc, br) :: rest) =
        if (3:ℚ)/2 < br then [bestSuccessRec bc br]
        else if (1:ℚ) < br then [bestInfoRec bc br] else [allUnderRec bc br] := rfl
    rw [heq]
    by_cases h1 : (3:ℚ)/2 < br
    · rw [if_pos h1]
      refine ⟨by simp, ?_⟩
      intro rec hrec
      rw [List.mem_singleton.mp hrec]
      refine ⟨Or.inl rfl, ?_, ?_, ?_⟩ <;>
        · simp only [bestSuccessRec]
          first
          | decide
          | ((repeat apply ne_nil_left); decide)
    · rw [if_neg h1]
      by_cases h2 : (1:ℚ) < br
      · rw [if_pos h2]
        refine ⟨by simp, ?_⟩
        intro rec hrec
        rw [List.mem_singleton.mp hrec]
        refine ⟨Or.inr (Or.inl rfl), ?_, ?_, ?_⟩ <;>
          · simp only [bestInfoRec]
            first
            | decide
            | ((repeat apply ne_nil_left); decide)
      · rw [if_neg h2]
        refine ⟨by simp, ?_⟩
        intro rec hrec
        rw [List.mem_singleton.mp hrec]
        refine ⟨Or.inr (Or.inr (Or.inl rfl)), ?_, ?_, ?_⟩ <;>
          · simp only [allUnderRec]
            first
            | decide
            | ((repeat apply ne_nil_left); decide)

theorem worstChannelInsights_ok (l : List (Str × ℚ)) :
    (worstChannelInsights l).length ≤ 1 ∧ ∀ rec ∈ worstChannelInsights l, insightOK rec := by
  rw [worstChannelInsights_eq]
  by_cases h1 : 1 < l.length
  · rw [if_pos h1]
    by_cases h2 : (if 0 < (l.headD ([], 0)).2
        then (l.getLastD ([], 0)).2 / (l.headD ([], 0)).2 else 0) < (7:ℚ)/10
    · rw [if_pos h2]
      refine ⟨by simp, ?_⟩
      intro rec hrec
      rw [List.mem_singleton.mp hrec]
      refine ⟨Or.inr (Or.inr (Or.inl rfl)), ?_, ?_, ?_⟩ <;>
        · simp only [worstRec]
          first
          | decide
          | ((repeat apply ne_nil_left); decide)
    · rw [if_neg h2]
      simp
  · rw [if_neg h1]
    simp

theorem divInsights_ok (l : List (Str × ℚ)) :
    (divInsights l).length ≤ 1 ∧ ∀ rec ∈ divInsights l, insightOK rec := by
  unfold divInsights
  by_cases h1 : 3 ≤ l.length
  · rw [if_pos h1]
    by_cases h2 : (3:ℚ)/10 < listMaxQ (l.map (·.2)) - listMinQ (l.map (·.2))
    · rw [if_pos h2]
      refine ⟨by simp, ?_⟩
      intro rec hrec
      rw [List.mem_singleton.mp hrec]
      refine ⟨Or.inr (Or.inl rfl), ?_, ?_, ?_⟩ <;>
        · simp only [divRec]
          first
          | decide
          | ((repeat apply ne_nil_left); decide)
    · rw [if_neg h2]
      simp
  · rw [if_neg h1]
    simp

theorem portfolioInsights_ok (roi : List (Str × Option ℚ)) :
    (portfolioInsights roi).length ≤ 1 ∧ ∀ rec ∈ portfolioInsights roi, insightOK rec := by
  unfold portfolioInsights
  by_cases h0 : roi ≠ [] ∧ (roi.filterMap (·.2)).length > 0
  · rw [if_pos h0]
    by_cases h1 : (6:ℚ)/5 < (roi.filterMap (·.2)).sum / ((roi.filterMap (·.2)).length : ℚ)
    · rw [if_pos h1]
      refine ⟨by simp, ?_⟩
      intro rec hrec
      rw [List.mem_singleton.mp hrec]
      refine ⟨Or.inl rfl, ?_, ?_, ?_⟩ <;>
        · simp only [portSuccessRec]
          first
          | decide
          | ((repeat apply ne_nil_left); decide)
    · rw [if_neg h1]
      by_cases h2 : (1:ℚ) < (roi.filterMap (·.2)).sum / ((roi.filterMap (·.2)).length : ℚ)
      · rw [if_pos h2]
        refine ⟨by simp, ?_⟩
        intro rec hrec
        rw [List.mem_singleton.mp hrec]
        refine ⟨Or.inr (Or.inl rfl), ?_, ?_, ?_⟩ <;>
          · simp only [portInfoRec]
            first
            | decide
            | ((repeat apply ne_nil_left); decide)
      · rw [if_neg h2]
        simp
  · rw [if_neg h0]
    simp

theorem channelInsights_ok (roi : List (Str × Option ℚ)) :
    (channelInsights roi).length ≤ 3 ∧ ∀ rec ∈ channelInsights roi, insightOK rec := by
  unfold channelInsights
  by_cases h0 : roi = []
  · rw [if_pos h0]
    simp
  · rw [if_neg h0]
    by_cases h1 : 0 < (pySortDesc (presentPairs roi)).length
    · rw [if_pos h1]
      obtain ⟨lb, hb⟩ := bestChannelInsights_ok (pySortDesc (presentPairs roi))
      obtain ⟨lw, hw⟩ := worstChannelInsights_ok (pySortDesc (presentPairs roi))
      obtain ⟨ld, hd⟩ := divInsights_ok (pySortDesc (presentPairs roi))
      constructor
      · simp only [List.length_append]
        omega
      · intro rec hrec
        rcases List.mem_append.mp hrec with hrec1 | hrec3
        · rcases List.mem_append.mp hrec1 with hrec1a | hrec1b
          · exact hb rec hrec1a
          · exact hw rec hrec1b
        · exact hd rec hrec3
    · rw [if_neg h1]
      simp

/-- Claim C10: `generate_marketing_insights` returns at most five records —
at most one per rule (fit-score, best-channel, worst-channel,
diversification, portfolio) — and every returned record has a type among
success/info/warning/danger and non-empty title, description and action. -/
theorem claim_C10 :
    ∀ (score : Option ℚ) (roi : List (Str × Option ℚ)),
      (generate_marketing_insights score roi).length ≤ 5 ∧
      (fitScoreInsights score).length ≤ 1 ∧
      (bestChannelInsights (pySortDesc (presentPairs roi))).length ≤ 1 ∧
      (worstChannelInsights (pySortDesc (presentPairs roi))).length ≤ 1 ∧
      (divInsights (pySortDesc (presentPairs roi))).length ≤ 1 ∧
      (portfolioInsights roi).length ≤ 1 ∧
      ∀ rec ∈ generate_marketing_insights score roi,
        (rec.type = "success".data ∨ rec.type = "info".data ∨
          rec.type = "warning".data ∨ rec.type = "danger".data) ∧
        rec.title ≠ [] ∧ rec.description ≠ [] ∧ rec.action ≠ [] := by
  intro score roi
  obtain ⟨lf, hf⟩ := fitScoreInsights_ok score
  obtain ⟨lc, hc⟩ := channelInsights_ok roi
  obtain ⟨lp, hp⟩ := portfolioInsights_ok roi
  refine ⟨?_, lf, (bestChannelInsights_ok _).1, (worstChannelInsights_ok _).1,
    (divInsights_ok _).1, lp, ?_⟩
  · show ((fitScoreInsights score ++ channelInsights roi ++ portfolioInsights roi)).length ≤ 5
    simp only [List.length_append]
    omega
  · intro rec hrec
    have hrec2 : rec ∈ fitScoreInsights score ++ channelInsights roi ++
        portfolioInsights roi := hrec
    rcases List.mem_append.mp hrec2 with h1 | h3
    · rcases List.mem_append.mp h1 with h1a | h1b
      · exact hf rec h1a
      · exact hc rec h1b
    · exact hp rec h3

theorem claim_C10_witness :
    (generate_marketing_insights (some ((3:ℚ)/5)) [("A".data, some (2:ℚ))]).length ≤ 5 ∧
    ((fitWarnRec ((3:ℚ)/5)).type = "success".data ∨
      (fitWarnRec ((3:ℚ)/5)).type = "info".data ∨
      (fitWarnRec ((3:ℚ)/5)).type = "warning".data ∨
      (fitWarnRec ((3:ℚ)/5)).type = "danger".data) ∧
    (fitWarnRec ((3:ℚ)/5)).title ≠ [] ∧
    (fitWarnRec ((3:ℚ)/5)).description ≠ [] ∧
    (fitWarnRec ((3:ℚ)/5)).action ≠ [] :=
  ⟨(claim_C10 (some ((3:ℚ)/5)) [("A".data, some (2:ℚ))]).1,
   (claim_C10 (some ((3:ℚ)/5)) [("A".data, some (2:ℚ))]).2.2.2.2.2.2
     (fitWarnRec ((3:ℚ)/5)) (by decide)⟩

/-! ### Invariants of the ROI extraction state -/

def roiEntryOK (p : Str × Option ℚ) : Prop :=
  toUpperL p.1 ≠ "BASELINE".data ∧ ∀ q, p.2 = some q → 0 ≤ q

def roiStateOK (st : List (Str × Option ℚ) × List Str) : Prop :=
  (∀ p ∈ st.1, roiEntryOK p) ∧ (∀ k ∈ st.2, toUpperL k ≠ "BASELINE".data)

theorem pyFloat_nonneg (s : Str) (q : ℚ) (h : pyFloat s = some q) : 0 ≤ q := by
  unfold pyFloat at h
  split at h
  · exact Option.noConfusion h
  split at h
  · exact Option.noConfusion h
  split at h
  · exact Option.noConfusion h
  split at h
  · exact Option.noConfusion h
  have hq := Option.some.inj h
  rw [← hq, Rat.mkRat_eq_div]
  apply div_nonneg
  · exact Int.cast_nonneg.mpr (Int.ofNat_nonneg _)
  · exact Nat.cast_nonneg _

theorem addSet_ok {P : Str → Prop} (l : List Str) (k : Str)
    (hl : ∀ x ∈ l, P x) (hk : P k) : ∀ x ∈ addSet l k, P x := by
  intro x hx
  unfold addSet at hx
  split at hx
  · exact hl x hx
  · rcases List.mem_append.mp hx with h | h
    · exact hl x h
    · rw [List.mem_singleton.mp h]
      exact hk

theorem processRoiStep_ok (st : List (Str × Option ℚ) × List Str) (channel : Str)
    (res : Option ℚ) (hres : ∀ v, res = some v → 0 ≤ v) (h : roiStateOK st) :
    roiStateOK (processRoiStep st channel res) := by
  obtain ⟨h1, h2⟩ := h
  cases res with
  | some v =>
    show roiStateOK (if toUpperL channel ≠ "BASELINE".data then
      ((if (lookupKV st.1 channel).isSome then st.1 else st.1 ++ [(channel, some v)]),
       addSet st.2 channel) else st)
    by_cases hg : toUpperL channel ≠ "BASELINE".data
    · rw [if_pos hg]
      refine ⟨?_, addSet_ok st.2 channel h2 hg⟩
      intro p hp
      rw [show ((if (lookupKV st.1 channel).isSome then st.1
          else st.1 ++ [(channel, some v)]), addSet st.2 channel).1 =
          (if (lookupKV st.1 channel).isSome then st.1
          else st.1 ++ [(channel, some v)]) from rfl] at hp
      split at hp
      · exact h1 p hp
      · rcases List.mem_append.mp hp with hm | hm
        · exact h1 p hm
        · rw [List.mem_singleton.mp hm]
          exact ⟨hg, fun q hq => (Option.some.inj hq) ▸ hres v rfl⟩
    · rw [if_neg hg]
      exact ⟨h1, h2⟩
  | none =>
    show roiStateOK (if toUpperL channel ≠ "BASELINE".data then
      (st.1, addSet st.2 channel) else st)
    by_cases hg : toUpperL channel ≠ "BASELINE".data
    · rw [if_pos hg]
      exact ⟨h1, addSet_ok st.2 channel h2 hg⟩
    · rw [if_neg hg]
      exact ⟨h1, h2⟩

theorem processRoiMatch_ok (st : List (Str × Option ℚ) × List Str)
    (g : Str × Str) (h : roiStateOK st) : roiStateOK (processRoiMatch st g) := by
  unfold processRoiMatch
  exact processRoiStep_ok st _ _ (fun v hv => pyFloat_nonneg _ v hv) h

theorem foldl_processRoiMatch_ok (ms : List (Str × Str)) :
    ∀ st, roiStateOK st → roiStateOK (ms.foldl processRoiMatch st) := by
  induction ms with
  | nil => intro st h; exact h
  | cons g t ih => intro st h; exact ih _ (processRoiMatch_ok st g h)

theorem roiPatternState_ok (t : Str) : roiStateOK (roiPatternState t) :=
  foldl_processRoiMatch_ok _ ([], []) ⟨by simp, by simp⟩

theorem roiAllChannels_ok (t : Str) :
    ∀ k ∈ roiAllChannels t, toUpperL k ≠ "BASELINE".data := by
  unfold roiAllChannels
  have key : ∀ (bs : List Str) (l0 : List Str),
      (∀ k ∈ l0, toUpperL k ≠ "BASELINE".data) →
      ∀ k ∈ bs.foldl (fun l g =>
          if toUpperL (pyStrip g) ≠ "BASELINE".data then addSet l (pyStrip g)
          else l) l0,
        toUpperL k ≠ "BASELINE".data := by
    intro bs
    induction bs with
    | nil => intro l0 h; exact h
    | cons b t2 ih =>
      intro l0 h
      simp only [List.foldl_cons]
      by_cases hg : toUpperL (pyStrip b) ≠ "BASELINE".data
      · rw [if_pos hg]
        exact ih _ (addSet_ok l0 (pyStrip b) h hg)
      · rw [if_neg hg]
        exact ih _ h
  exact key (bareMatchList t) _ (roiPatternState_ok t).2

theorem finalFill_ok (l : List Str) :
    ∀ m : List (Str × Option ℚ), (∀ p ∈ m, roiEntryOK p) →
      (∀ k ∈ l, toUpperL k ≠ "BASELINE".data) →
      ∀ p ∈ finalFill m l, roiEntryOK p := by
  induction l with
  | nil => intro m hm _; exact hm
  | cons c t ih =>
    intro m hm hl
    show ∀ p ∈ finalFill (if (lookupKV m c).isSome then m else m ++ [(c, none)]) t, _
    refine ih _ ?_ (fun k hk => hl k (List.mem_cons_of_mem c hk))
    intro p hp
    split at hp
    · exact hm p hp
    · rcases List.mem_append.mp hp with h | h
      · exact hm p h
      · rw [List.mem_singleton.mp h]
        exact ⟨hl c (List.mem_cons_self c t), fun q hq => Option.noConfusion hq⟩

theorem extract_roi_ok (f : Option Str) :
    ∀ p ∈ extract_roi_by_channel f, roiEntryOK p := by
  cases f with
  | none => simp [extract_roi_by_channel]
  | some t =>
    exact finalFill_ok (roiAllChannels t) (roiPatternState t).1
      (roiPatternState_ok t).1 (roiAllChannels_ok t)

theorem lookupKV_mem {α : Type} (m : List (Str × α)) (k : Str) (v : α)
    (h : lookupKV m k = some v) : (k, v) ∈ m := by
  induction m with
  | nil => exact Option.noConfusion h
  | cons p rest ih =>
    obtain ⟨k0, v0⟩ := p
    rw [lookupKV] at h
    by_cases he : k0 = k
    · rw [if_pos he] at h
      rw [he, Option.some.inj h]
      exact List.mem_cons_self _ _
    · rw [if_neg he] at h
      exact List.mem_cons_of_mem _ (ih h)

theorem extract_r2_some_eq (t : Str) :
    extract_r2_from_html (some t) =
      match searchPrimaryGroup t with
      | some g =>
        match pyFloat g with
        | some v => some v
        | none =>
          match searchFallbackGroup t with
          | some g2 => pyFloat g2
          | none => none
      | none =>
        match searchFallbackGroup t with
        | some g2 => pyFloat g2
        | none => none := rfl

/-- Claim C3: no key of the mapping produced by `extract_roi_by_channel` is
a case variant of the reserved sentinel: its uppercase form is never
`BASELINE`, across both the ROI-pattern pass and the bare-channel discovery
pass. -/
theorem claim_C3 :
    ∀ (f : Option Str) (k : Str) (v : Option ℚ),
      lookupKV (extract_roi_by_channel f) k = some v →
      toUpperL k ≠ "BASELINE".data :=
  fun f k v h => (extract_roi_ok f (k, v) (lookupKV_mem _ _ _ h)).1

theorem claim_C3_witness :
    lookupKV (extract_roi_by_channel (some "\"channel\": \"tv\", \"roi\": 1.5".data))
      "tv".data = some (some (mkRat 3 2)) ∧
    toUpperL "tv".data ≠ "BASELINE".data :=
  ⟨by decide,
   claim_C3 (some "\"channel\": \"tv\", \"roi\": 1.5".data) "tv".data
     (some (mkRat 3 2)) (by decide)⟩

/-- Claim C9: every numeric value produced by the metric extractor is
non-negative — a present fit score is at least 0 (the capture classes admit
no sign), and every present ROI value is at least 0 — even though the
glossary allows fit scores down to −∞. -/
theorem claim_C9 :
    ∀ f : Option Str,
      (∀ q, extract_r2_from_html f = some q → 0 ≤ q) ∧
      (∀ k q, lookupKV (extract_roi_by_channel f) k = some (some q) → 0 ≤ q) := by
  intro f
  constructor
  · intro q h
    cases f with
    | none => exact Option.noConfusion h
    | some t =>
      rw [extract_r2_some_eq] at h
      split at h
      · split at h
        · rename_i hv
          exact (Option.some.inj h) ▸ pyFloat_nonneg _ _ hv
        · split at h
          · exact pyFloat_nonneg _ _ h
          · exact Option.noConfusion h
      · split at h
        · exact pyFloat_nonneg _ _ h
        · exact Option.noConfusion h
  · intro k q h
    exact (extract_roi_ok f (k, some q) (lookupKV_mem _ _ _ h)).2 q rfl

theorem claim_C9_witness :
    extract_r2_from_html (some "<th>R-squared</th><td>0.5</td>".data) =
      some (mkRat 5 10) ∧
    (0:ℚ) ≤ mkRat 5 10 ∧
    lookupKV (extract_roi_by_channel (some "\"roi\": 2.5, \"channel\": \"fb\"".data))
      "fb".data = some (some (mkRat 5 2)) ∧
    (0:ℚ) ≤ mkRat 5 2 :=
  ⟨by decide,
   (claim_C9 (some "<th>R-squared</th><td>0.5</td>".data)).1 (mkRat 5 10) (by decide),
   by decide,
   (claim_C9 (some "\"roi\": 2.5, \"channel\": \"fb\"".data)).2 "fb".data
     (mkRat 5 2) (by decide)⟩

/-! ### First-match-wins and the discovery fill -/

theorem lookupKV_append {α : Type} (m l2 : List (Str × α)) (k : Str) :
    lookupKV (m ++ l2) k =
      match lookupKV m k with
      | some v => some v
      | none => lookupKV l2 k := by
  induction m with
  | nil => simp [lookupKV]
  | cons p rest ih =>
    obtain ⟨k0, v0⟩ := p
    by_cases he : k0 = k
    · simp [lookupKV, he]
    · simp only [List.cons_append, lookupKV, if_neg he]
      exact ih

theorem lookupKV_append_of_some {α : Type} (m l2 : List (Str × α)) (k : Str)
    (v : α) (h : lookupKV m k = some v) : lookupKV (m ++ l2) k = some v := by
  rw [lookupKV_append, h]

theorem processRoiStep_preserves (st : List (Str × Option ℚ) × List Str)
    (channel : Str) (res : Option ℚ) (k : Str) (v : Option ℚ)
    (h : lookupKV st.1 k = some v) :
    lookupKV (processRoiStep st channel res).1 k = some v := by
  cases res with
  | some w =>
    show lookupKV (if toUpperL channel ≠ "BASELINE".data then
      ((if (lookupKV st.1 channel).isSome then st.1 else st.1 ++ [(channel, some w)]),
       addSet st.2 channel) else st).1 k = some v
    split
    · show lookupKV (if (lookupKV st.1 channel).isSome then st.1
        else st.1 ++ [(channel, some w)]) k = some v
      split
      · exact h
      · exact lookupKV_append_of_some _ _ _ _ h
    · exact h
  | none =>
    show lookupKV (if toUpperL channel ≠ "BASELINE".data then
      (st.1, addSet st.2 channel) else st).1 k = some v
    split
    · exact h
    · exact h

theorem processRoiMatch_preserves (st : List (Str × Option ℚ) × List Str)
    (g : Str × Str) (k : Str) (v : Option ℚ) (h : lookupKV st.1 k = some v) :
    lookupKV (processRoiMatch st g).1 k = some v := by
  unfold processRoiMatch
  exact processRoiStep_preserves st _ _ k v h

theorem mem_addSet_self (l : List Str) (k : Str) : k ∈ addSet l k := by
  unfold addSet
  split
  · assumption
  · exact List.mem_append.mpr (Or.inr (List.mem_singleton.mpr rfl))

theorem mem_addSet_of (l : List Str) (k k2 : Str) (h : k ∈ l) : k ∈ addSet l k2 := by
  unfold addSet
  split
  · exact h
  · exact List.mem_append.mpr (Or.inl h)

/-- The channels the bare discovery pass finds (stripped, non-sentinel). -/
def bareChannelsOf (t : Str) : List Str :=
  ((bareMatchList t).map pyStrip).filter fun c =>
    decide (toUpperL c ≠ "BASELINE".data)

theorem mem_bareFold (bs : List Str) :
    ∀ (l0 : List Str) (k : Str),
      (k ∈ l0 ∨ ∃ b ∈ bs, pyStrip b = k ∧ toUpperL k ≠ "BASELINE".data) →
      k ∈ bs.foldl (fun l g =>
        if toUpperL (pyStrip g) ≠ "BASELINE".data then addSet l (pyStrip g)
        else l) l0 := by
  induction bs with
  | nil =>
    intro l0 k h
    rcases h with h | ⟨b, hb, _⟩
    · exact h
    · exact absurd hb (List.not_mem_nil b)
  | cons b bs2 ih =>
    intro l0 k h
    simp only [List.foldl_cons]
    rcases h with h | ⟨b0, hb0, hsk, hg⟩
    · refine ih _ k (Or.inl ?_)
      split
      · exact mem_addSet_of _ _ _ h
      · exact h
    · rcases List.mem_cons.mp hb0 with he | hb0t
      · refine ih _ k (Or.inl ?_)
        rw [he] at hsk
        rw [← hsk] at hg ⊢
        rw [if_pos hg]
        exact mem_addSet_self _ _
      · exact ih _ k (Or.inr ⟨b0, hb0t, hsk, hg⟩)

theorem finalFill_preserves_some (l : List Str) :
    ∀ (m : List (Str × Option ℚ)) (k : Str) (v : Option ℚ),
      lookupKV m k = some v → lookupKV (finalFill m l) k = some v := by
  induction l with
  | nil => intro m k v h; exact h
  | cons c t ih =>
    intro m k v h
    show lookupKV (finalFill (if (lookupKV m c).isSome then m
      else m ++ [(c, none)]) t) k = some v
    refine ih _ k v ?_
    split
    · exact h
    · exact lookupKV_append_of_some _ _ _ _ h

theorem finalFill_lookup_none (l : List Str) :
    ∀ (m : List (Str × Option ℚ)) (k : Str), k ∈ l → lookupKV m k = none →
      lookupKV (finalFill m l) k = some none := by
  induction l with
  | nil =>
    intro m k hk _
    exact absurd hk (List.not_mem_nil k)
  | cons c t ih =>
    intro m k hk hm
    show lookupKV (finalFill (if (lookupKV m c).isSome then m
      else m ++ [(c, none)]) t) k = some none
    by_cases he : k = c
    · rw [← he] at *
      rw [if_neg (by rw [hm]; simp)]
      refine finalFill_preserves_some t _ k none ?_
      rw [lookupKV_append, hm]
      simp [lookupKV]
    · rcases List.mem_cons.mp hk with hkc | hkt
      · exact absurd hkc he
      · refine ih _ k hkt ?_
        split
        · exact hm
        · rw [lookupKV_append, hm]
          show lookupKV [(c, none)] k = none
          rw [lookupKV, if_neg (fun hc => he hc.symm)]
          rfl

/-- Claim C4: `extract_roi_by_channel` applies first-match-wins per channel
name — once the state records an ROI value for a channel, processing any
further matches (same or later pattern variant) leaves that value
unchanged — and every channel found by the bare discovery pass that is not
present in the pattern-pass data is added to the result with an absent
value. -/
theorem claim_C4 :
    (∀ (st : List (Str × Option ℚ) × List Str) (ms : List (Str × Str))
        (k : Str) (v : Option ℚ),
      lookupKV st.1 k = some v →
      lookupKV (ms.foldl processRoiMatch st).1 k = some v) ∧
    (∀ (t : Str) (k : Str),
      k ∈ bareChannelsOf t →
      lookupKV (roiPatternState t).1 k = none →
      lookupKV (extract_roi_by_channel (some t)) k = some none) := by
  constructor
  · intro st ms
    induction ms generalizing st with
    | nil => intro k v h; exact h
    | cons g rest ih =>
      intro k v h
      exact ih _ k v (processRoiMatch_preserves st g k v h)
  · intro t k hk hnone
    show lookupKV (finalFill (roiPatternState t).1 (roiAllChannels t)) k = some none
    refine finalFill_lookup_none _ _ k ?_ hnone
    unfold roiAllChannels
    refine mem_bareFold (bareMatchList t) _ k (Or.inr ?_)
    rcases List.mem_filter.mp hk with ⟨hmap, hguard⟩
    obtain ⟨b, hb, hstrip⟩ := List.mem_map.mp hmap
    exact ⟨b, hb, hstrip, of_decide_eq_true hguard⟩

theorem claim_C4_witness :
    lookupKV ((([("a".data, some (mkRat 1 1))], []) :
        List (Str × Option ℚ) × List Str)).1 "a".data = some (some (mkRat 1 1)) ∧
    lookupKV (([("a".data, "2".data)].foldl processRoiMatch
        (([("a".data, some (mkRat 1 1))], []) :
          List (Str × Option ℚ) × List Str)).1) "a".data =
      some (some (mkRat 1 1)) ∧
    "x".data ∈ bareChannelsOf "\"channel\": \"x\"".data ∧
    lookupKV (extract_roi_by_channel (some "\"channel\": \"x\"".data)) "x".data =
      some none :=
  ⟨by decide,
   claim_C4.1 _ _ "a".data (some (mkRat 1 1)) (by decide),
   by decide,
   claim_C4.2 "\"channel\": \"x\"".data "x".data (by decide) (by decide)⟩

/-! ### Label-occurrence lemmas for the fit-score patterns -/

theorem startsWithL_map (f : Char → Char) (pat s : Str)
    (h : startsWithL pat s = true) : startsWithL (pat.map f) (s.map f) = true := by
  induction pat generalizing s with
  | nil => rfl
  | cons p ps ih =>
    cases s with
    | nil => simp [startsWithL] at h
    | cons c cs =>
      simp only [startsWithL, Bool.and_eq_true, decide_eq_true_eq] at h
      simp only [List.map_cons, startsWithL, Bool.and_eq_true, decide_eq_true_eq]
      exact ⟨by rw [h.1], ih cs h.2⟩

theorem containsSubL_of_startsWith (pat s : Str)
    (h : startsWithL pat s = true) : containsSubL s pat = true := by
  cases s with
  | nil =>
    cases pat with
    | nil => rfl
    | cons p ps => simp [startsWithL] at h
  | cons c cs =>
    unfold containsSubL findSubIdx
    rw [if_pos h]
    rfl

theorem containsSubL_of_startsWith_mid (a pat c s : Str)
    (h : startsWithL (a ++ (pat ++ c)) s = true) : containsSubL s pat = true := by
  induction a generalizing s with
  | nil =>
    have hw : startsWithL pat s = true := by
      revert h
      show startsWithL (pat ++ c) s = true → _
      induction pat generalizing s with
      | nil => intro _; rfl
      | cons p ps ih =>
        intro h2
        cases s with
        | nil => simp [startsWithL] at h2
        | cons x xs =>
          simp only [List.cons_append, startsWithL, Bool.and_eq_true,
            decide_eq_true_eq] at h2
          simp only [startsWithL, Bool.and_eq_true, decide_eq_true_eq]
          exact ⟨h2.1, ih xs h2.2⟩
    exact containsSubL_of_startsWith pat s hw
  | cons x a2 ih =>
    cases s with
    | nil => simp [startsWithL] at h
    | cons y ys =>
      simp only [List.cons_append, startsWithL, Bool.and_eq_true,
        decide_eq_true_eq] at h
      exact containsSubL_cons y ys pat (ih ys h.2)

theorem tryPrimaryAt_startsWith (s g : Str) (h : tryPrimaryAt s = some g) :
    startsWithL "<th>R-squared</th>".data s = true := by
  unfold tryPrimaryAt expectLit at h
  by_cases hs : startsWithL "<th>R-squared</th>".data s = true
  · exact hs
  · rw [if_neg hs] at h
    exact Option.noConfusion h

theorem tryFallbackAt_startsWith (s g : Str) (h : tryFallbackAt s = some g) :
    startsWithL "r-squared".data s = true := by
  unfold tryFallbackAt expectLit at h
  by_cases hs : startsWithL "r-squared".data s = true
  · exact hs
  · rw [if_neg hs] at h
    exact Option.noConfusion h

theorem searchPrimaryAux_contains (fuel : Nat) :
    ∀ s : Str, (searchPrimaryAux fuel s).isSome = true →
      containsSubL (toLowerL s) "r-squared".data = true := by
  induction fuel with
  | zero => intro s h; simp [searchPrimaryAux] at h
  | succ n ih =>
    intro s h
    simp only [searchPrimaryAux] at h
    cases hp : tryPrimaryAt s with
    | some g =>
      have hsw := tryPrimaryAt_startsWith s g hp
      have hswl := startsWithL_map Char.toLower _ _ hsw
      rw [show ("<th>R-squared</th>".data.map Char.toLower) =
        "<th>".data ++ ("r-squared".data ++ "</th>".data) from by decide] at hswl
      exact containsSubL_of_startsWith_mid _ _ _ _ hswl
    | none =>
      rw [hp] at h
      cases s with
      | nil => simp at h
      | cons c t =>
        have hc := ih t h
        exact containsSubL_cons (Char.toLower c) (toLowerL t) _ hc

theorem searchFallbackAux_contains (fuel : Nat) :
    ∀ s : Str, (searchFallbackAux fuel s).isSome = true →
      containsSubL s "r-squared".data = true := by
  induction fuel with
  | zero => intro s h; simp [searchFallbackAux] at h
  | succ n ih =>
    intro s h
    simp only [searchFallbackAux] at h
    cases hp : tryFallbackAt s with
    | some g => exact containsSubL_of_startsWith _ _ (tryFallbackAt_startsWith s g hp)
    | none =>
      rw [hp] at h
      cases s with
      | nil => simp at h
      | cons c t => exact containsSubL_cons c t _ (ih t h)

/-- Claim C5 (corrected): the claim states that the first pattern match wins
and its captured value must parse or the result is absent; in the code a
primary match whose captured value fails `float()` falls through to the
case-insensitive fallback pattern, which can succeed elsewhere in the
text. -/
theorem claim_C5_counterexample :
    searchPrimaryGroup
        "r-squared <td>1.5</td> <th>R-squared</th> <td>.</td>".data =
      some ".".data ∧
    pyFloat ".".data = none ∧
    extract_r2_from_html
        (some "r-squared <td>1.5</td> <th>R-squared</th> <td>.</td>".data) =
      some (mkRat 3 2) :=
  ⟨by decide, by decide, by decide⟩

/-- Claim C5 (amended): fit-score extraction applies the primary table-row
pattern; if it does not match, or its captured value fails to parse, the
case-insensitive fallback pattern is applied and its captured value must
parse as a decimal number or the result is absent; for all text containing
no case-insensitive occurrence of the label `R-squared`, the extracted fit
score is absent. -/
theorem claim_C5 :
    (∀ (t g : Str) (v : ℚ),
      searchPrimaryGroup t = some g → pyFloat g = some v →
      extract_r2_from_html (some t) = some v) ∧
    (∀ t : Str,
      (searchPrimaryGroup t = none ∨
        ∃ g, searchPrimaryGroup t = some g ∧ pyFloat g = none) →
      extract_r2_from_html (some t) = (searchFallbackGroup t).bind pyFloat) ∧
    (∀ t : Str, containsSubL (toLowerL t) "r-squared".data = false →
      extract_r2_from_html (some t) = none) := by
  refine ⟨?_, ?_, ?_⟩
  · intro t g v hg hv
    rw [extract_r2_some_eq, hg]
    show (match pyFloat g with
      | some v => some v
      | none =>
        match searchFallbackGroup t with
        | some g2 => pyFloat g2
        | none => none) = some v
    rw [hv]
  · intro t h
    rcases h with h | ⟨g, hg, hv⟩
    · rw [extract_r2_some_eq, h]
      cases hf : searchFallbackGroup t <;> simp [Option.bind]
    · rw [extract_r2_some_eq, hg]
      show (match pyFloat g with
        | some v => some v
        | none =>
          match searchFallbackGroup t with
          | some g2 => pyFloat g2
          | none => none) = (searchFallbackGroup t).bind pyFloat
      rw [hv]
      cases hf : searchFallbackGroup t <;> simp [Option.bind]
  · intro t h
    have hp : searchPrimaryGroup t = none := by
      cases hp0 : searchPrimaryGroup t with
      | none => rfl
      | some g =>
        have hsp : (searchPrimaryAux (t.length + 1) t).isSome = true := by
          show (searchPrimaryGroup t).isSome = true
          rw [hp0]
          rfl
        rw [searchPrimaryAux_contains _ t hsp] at h
        exact Bool.noConfusion h
    have hf : searchFallbackGroup t = none := by
      cases hf0 : searchFallbackGroup t with
      | none => rfl
      | some g =>
        have hsf : (searchFallbackAux ((toLowerL t).length + 1) (toLowerL t)).isSome
            = true := by
          show (searchFallbackGroup t).isSome = true
          rw [hf0]
          rfl
        rw [searchFallbackAux_contains _ (toLowerL t) hsf] at h
        exact Bool.noConfusion h
    rw [extract_r2_some_eq, hp]
    show (match searchFallbackGroup t with
      | some g2 => pyFloat g2
      | none => none) = none
    rw [hf]

theorem claim_C5_witness :
    extract_r2_from_html (some "<th>R-squared</th><td>0.7</td>".data) =
      some (mkRat 7 10) ∧
    extract_r2_from_html (some "nothing to see".data) = none :=
  ⟨claim_C5.1 "<th>R-squared</th><td>0.7</td>".data "0.7".data (mkRat 7 10)
      (by decide) (by decide),
   claim_C5.2.2 "nothing to see".data (by decide)⟩

/-! ### Claim C2: support lemmas for the model-fit spec transform -/

theorem bind_ok_iff {α β : Type} (m : Except Unit α) (f : α → Except Unit β)
    (b : β) : (m >>= f) = .ok b ↔ ∃ a, m = .ok a ∧ f a = .ok b := by
  cases m with
  | error e =>
    constructor
    · intro h
      exact Except.noConfusion h
    · rintro ⟨a, ha, _⟩
      exact Except.noConfusion ha
  | ok a =>
    constructor
    · intro h
      exact ⟨a, rfl, h⟩
    · rintro ⟨a2, ha, hf⟩
      cases ha
      exact hf

theorem pure_ok_iff {α : Type} (a b : α) :
    (pure a : Except Unit α) = .ok b ↔ a = b :=
  ⟨fun h => Except.ok.inj h, fun h => h ▸ rfl⟩

theorem error_ne_ok {α : Type} (e : Unit) (b : α) :
    ((Except.error e : Except Unit α) = .ok b) ↔ False :=
  ⟨fun h => Except.noConfusion h, False.elim⟩

theorem lookupKV_setKV_self {α : Type} (m : List (Str × α)) (k : Str)
    (v : α) : lookupKV (setKV m k v) k = some v := by
  induction m with
  | nil => simp [setKV, lookupKV]
  | cons p rest ih =>
    by_cases hk : p.1 = k
    · simp [setKV, lookupKV, hk]
    · simp [setKV, lookupKV, hk, ih]

theorem lookupKV_setKV_ne {α : Type} (m : List (Str × α)) (k k2 : Str)
    (v : α) (h : k2 ≠ k) : lookupKV (setKV m k v) k2 = lookupKV m k2 := by
  induction m with
  | nil => simp [setKV, lookupKV, Ne.symm h]
  | cons p rest ih =>
    by_cases hk : p.1 = k
    · by_cases hk2 : p.1 = k2
      · exact absurd (hk2.symm.trans hk) h
      · simp [setKV, lookupKV, hk, hk2, h, Ne.symm h]
    · by_cases hk2 : p.1 = k2
      · simp [setKV, lookupKV, hk, hk2, h]
      · simp [setKV, lookupKV, hk, hk2, ih]

theorem mapME_mem_exact {α β : Type} (f : α → Except Unit β) (l : List α)
    (l2 : List β) (h : mapME f l = .ok l2) :
    ∀ y ∈ l2, ∃ x ∈ l, f x = .ok y := by
  induction l generalizing l2 with
  | nil =>
    simp only [mapME, pure_ok_iff] at h
    cases h
    intro y hy
    exact absurd hy (List.not_mem_nil y)
  | cons x rest ih =>
    simp only [mapME, bind_ok_iff] at h
    obtain ⟨y0, hy0, h⟩ := h
    obtain ⟨ys, hys, h⟩ := h
    injection h with h
    subst h
    intro y hy
    rcases List.mem_cons.mp hy with hEq | hMem
    · exact ⟨x, List.mem_cons_self x rest, hEq ▸ hy0⟩
    · obtain ⟨x2, hx2, hfx2⟩ := ih ys hys y hMem
      exact ⟨x2, List.mem_cons_of_mem x hx2, hfx2⟩

theorem filterBaselineItems_ok (l kept : List Json)
    (h : filterBaselineItems l = .ok kept) :
    ∀ it ∈ kept, noBaselineItem it = true := by
  induction l generalizing kept with
  | nil =>
    simp only [filterBaselineItems] at h
    cases h
    intro it hit
    exact absurd hit (List.not_mem_nil it)
  | cons x rest ih =>
    cases x with
    | obj kvs =>
      simp only [filterBaselineItems, bind_ok_iff] at h
      obtain ⟨tail, htail, h⟩ := h
      injection h with h
      subst h
      intro it hit
      by_cases hb : noBaselineItem (Json.obj kvs) = true
      · rw [if_pos hb] at hit
        rcases List.mem_cons.mp hit with hEq | hMem
        · exact hEq ▸ hb
        · exact ih tail htail it hMem
      · rw [if_neg hb] at hit
        exact ih tail htail it hit
    | null => exact Except.noConfusion h
    | bool b => exact Except.noConfusion h
    | num q => exact Except.noConfusion h
    | str s => exact Except.noConfusion h
    | arr xs => exact Except.noConfusion h

theorem fitFilterDatasets_datasets (spec s1 : Json)
    (h : fitFilterDatasets spec = .ok s1) (ds : List (Str × Json))
    (hds : jGetObjOpt s1 "datasets".data = some (Json.obj ds))
    (name : Str) (v : Json) (hv : lookupKV ds name = some v) :
    ∃ items, v = Json.arr items ∧ ∀ it ∈ items, noBaselineItem it = true := by
  cases spec with
  | null => exact Except.noConfusion h
  | bool b => exact Except.noConfusion h
  | num q => exact Except.noConfusion h
  | str s =>
    obtain ⟨hasDs, hhd, h⟩ := (bind_ok_iff _ _ _).mp h
    simp only [jMember] at hhd
    injection hhd with hhd
    subst hhd
    cases hc : containsSubL s "datasets".data with
    | false =>
      rw [hc] at h
      have h2 := (pure_ok_iff (Json.str s) s1).mp h
      subst h2
      simp [jGetObjOpt] at hds
    | true =>
      rw [hc] at h
      obtain ⟨d, hd, _⟩ := (bind_ok_iff _ _ _).mp h
      exact Except.noConfusion hd
  | arr xs =>
    obtain ⟨hasDs, hhd, h⟩ := (bind_ok_iff _ _ _).mp h
    simp only [jMember] at hhd
    injection hhd with hhd
    subst hhd
    cases hc : (xs.any fun x => match x with
        | .str s2 => decide (s2 = "datasets".data)
        | _ => false) with
    | false =>
      rw [hc] at h
      have h2 := (pure_ok_iff (Json.arr xs) s1).mp h
      subst h2
      simp [jGetObjOpt] at hds
    | true =>
      rw [hc] at h
      obtain ⟨d, hd, _⟩ := (bind_ok_iff _ _ _).mp h
      exact Except.noConfusion hd
  | obj kvs =>
    obtain ⟨hasDs, hhd, h⟩ := (bind_ok_iff _ _ _).mp h
    simp only [jMember] at hhd
    injection hhd with hhd
    subst hhd
    cases hlk : lookupKV kvs "datasets".data with
    | none =>
      rw [hlk] at h
      have h2 := (pure_ok_iff (Json.obj kvs) s1).mp h
      subst h2
      simp [jGetObjOpt, hlk] at hds
    | some dsv =>
      rw [hlk] at h
      obtain ⟨d, hd, h⟩ := (bind_ok_iff _ _ _).mp h
      simp only [jSub, hlk] at hd
      injection hd with hd
      subst hd
      cases dsv with
      | obj entries =>
        obtain ⟨entries', hmap, hset⟩ := (bind_ok_iff _ _ _).mp h
        simp only [jSet] at hset
        injection hset with hset
        subst hset
        simp only [jGetObjOpt, lookupKV_setKV_self] at hds
        injection hds with hds
        injection hds with hds
        subst hds
        obtain ⟨p, hp, hfp⟩ :=
          mapME_mem_exact _ _ _ hmap (name, v) (lookupKV_mem _ _ _ hv)
        obtain ⟨items, hitems, hfp⟩ := (bind_ok_iff _ _ _).mp hfp
        obtain ⟨kept, hkept, hfp⟩ := (bind_ok_iff _ _ _).mp hfp
        have hfp2 := (pure_ok_iff (p.1, Json.arr kept) (name, v)).mp hfp
        have hv2 : Json.arr kept = v := congrArg Prod.snd hfp2
        exact ⟨kept, hv2.symm, filterBaselineItems_ok _ _ hkept⟩
      | null => exact Except.noConfusion h
      | bool b => exact Except.noConfusion h
      | num q => exact Except.noConfusion h
      | str s => exact Except.noConfusion h
      | arr xs => exact Except.noConfusion h

theorem mapFitColorE_eq (l l2 : List Json) (h : mapFitColorE l = .ok l2) :
    l2 = l.map fitColor := by
  induction l generalizing l2 with
  | nil => exact (Except.ok.inj h).symm
  | cons d rest ih =>
    cases d with
    | str s =>
      obtain ⟨tail, htail, h⟩ := (bind_ok_iff _ _ _).mp h
      rw [List.map_cons, ← ih tail htail]
      exact (Except.ok.inj h).symm
    | null => exact Except.noConfusion h
    | bool b => exact Except.noConfusion h
    | num q => exact Except.noConfusion h
    | arr xs => exact Except.noConfusion h
    | obj kvs => exact Except.noConfusion h

theorem clearTitle_other (spec s2 : Json) (h : clearTitle spec = .ok s2)
    (k : Str) (hk : k ≠ "title".data) :
    jGetObjOpt s2 k = jGetObjOpt spec k := by
  cases spec with
  | null => exact Except.noConfusion h
  | bool b => exact Except.noConfusion h
  | num q => exact Except.noConfusion h
  | str s =>
    obtain ⟨hasT, hht, h⟩ := (bind_ok_iff _ _ _).mp h
    simp only [jMember] at hht
    injection hht with hht
    subst hht
    cases hc : containsSubL s "title".data with
    | false =>
      rw [hc] at h
      have h2 := (pure_ok_iff (Json.str s) s2).mp h
      subst h2
      rfl
    | true =>
      rw [hc] at h
      exact Except.noConfusion h
  | arr xs =>
    obtain ⟨hasT, hht, h⟩ := (bind_ok_iff _ _ _).mp h
    simp only [jMember] at hht
    injection hht with hht
    subst hht
    cases hc : (xs.any fun x => match x with
        | .str s2 => decide (s2 = "title".data)
        | _ => false) with
    | false =>
      rw [hc] at h
      have h2 := (pure_ok_iff (Json.arr xs) s2).mp h
      subst h2
      rfl
    | true =>
      rw [hc] at h
      exact Except.noConfusion h
  | obj kvs =>
    obtain ⟨hasT, hht, h⟩ := (bind_ok_iff _ _ _).mp h
    simp only [jMember] at hht
    injection hht with hht
    subst hht
    cases hlk : lookupKV kvs "title".data with
    | none =>
      rw [hlk] at h
      have h2 := (pure_ok_iff (Json.obj kvs) s2).mp h
      subst h2
      rfl
    | some tv =>
      rw [hlk] at h
      simp only [jSet] at h
      injection h with h
      subst h
      simp only [jGetObjOpt]
      exact lookupKV_setKV_ne kvs "title".data k Json.null hk

theorem transformLayersWith_other (f : Json → Except Unit Json)
    (spec s2 : Json) (h : transformLayersWith f spec = .ok s2)
    (k : Str) (hk : k ≠ "layer".data) :
    jGetObjOpt s2 k = jGetObjOpt spec k := by
  cases spec with
  | null => exact Except.noConfusion h
  | bool b => exact Except.noConfusion h
  | num q => exact Except.noConfusion h
  | str s =>
    obtain ⟨hasL, hhl, h⟩ := (bind_ok_iff _ _ _).mp h
    simp only [jMember] at hhl
    injection hhl with hhl
    subst hhl
    cases hc : containsSubL s "layer".data with
    | false =>
      rw [hc] at h
      have h2 := (pure_ok_iff (Json.str s) s2).mp h
      subst h2
      rfl
    | true =>
      rw [hc] at h
      obtain ⟨lv, hlv, h⟩ := (bind_ok_iff _ _ _).mp h
      exact Except.noConfusion hlv
  | arr xs =>
    obtain ⟨hasL, hhl, h⟩ := (bind_ok_iff _ _ _).mp h
    simp only [jMember] at hhl
    injection hhl with hhl
    subst hhl
    cases hc : (xs.any fun x => match x with
        | .str s2 => decide (s2 = "layer".data)
        | _ => false) with
    | false =>
      rw [hc] at h
      have h2 := (pure_ok_iff (Json.arr xs) s2).mp h
      subst h2
      rfl
    | true =>
      rw [hc] at h
      obtain ⟨lv, hlv, h⟩ := (bind_ok_iff _ _ _).mp h
      exact Except.noConfusion hlv
  | obj kvs =>
    obtain ⟨hasL, hhl, h⟩ := (bind_ok_iff _ _ _).mp h
    simp only [jMember] at hhl
    injection hhl with hhl
    subst hhl
    cases hlk : lookupKV kvs "layer".data with
    | none =>
      rw [hlk] at h
      have h2 := (pure_ok_iff (Json.obj kvs) s2).mp h
      subst h2
      rfl
    | some lv =>
      rw [hlk] at h
      obtain ⟨d, hd, h⟩ := (bind_ok_iff _ _ _).mp h
      simp only [jSub, hlk] at hd
      injection hd with hd
      subst hd
      cases lv with
      | arr ls =>
        obtain ⟨ls2, hmap, hset⟩ := (bind_ok_iff _ _ _).mp h
        simp only [jSet] at hset
        injection hset with hset
        subst hset
        simp only [jGetObjOpt]
        exact lookupKV_setKV_ne kvs "layer".data k (.arr ls2) hk
      | obj kvs2 =>
        obtain ⟨u, hu, h⟩ := (bind_ok_iff _ _ _).mp h
        have h2 := (pure_ok_iff (Json.obj kvs) s2).mp h
        subst h2
        rfl
      | str s =>
        obtain ⟨u, hu, h⟩ := (bind_ok_iff _ _ _).mp h
        have h2 := (pure_ok_iff (Json.obj kvs) s2).mp h
        subst h2
        rfl
      | null => exact Except.noConfusion h
      | bool b => exact Except.noConfusion h
      | num q => exact Except.noConfusion h

theorem transformLayersWith_layers (f : Json → Except Unit Json)
    (spec s2 : Json) (h : transformLayersWith f spec = .ok s2)
    (ls : List Json) (hls : jGetObjOpt s2 "layer".data = some (Json.arr ls)) :
    ∀ layer ∈ ls, ∃ l0, transformLayerWith f l0 = .ok layer := by
  cases spec with
  | null => exact Except.noConfusion h
  | bool b => exact Except.noConfusion h
  | num q => exact Except.noConfusion h
  | str s =>
    obtain ⟨hasL, hhl, h⟩ := (bind_ok_iff _ _ _).mp h
    simp only [jMember] at hhl
    injection hhl with hhl
    subst hhl
    cases hc : containsSubL s "layer".data with
    | false =>
      rw [hc] at h
      have h2 := (pure_ok_iff (Json.str s) s2).mp h
      subst h2
      simp [jGetObjOpt] at hls
    | true =>
      rw [hc] at h
      obtain ⟨lv, hlv, h⟩ := (bind_ok_iff _ _ _).mp h
      exact Except.noConfusion hlv
  | arr xs =>
    obtain ⟨hasL, hhl, h⟩ := (bind_ok_iff _ _ _).mp h
    simp only [jMember] at hhl
    injection hhl with hhl
    subst hhl
    cases hc : (xs.any fun x => match x with
        | .str s2 => decide (s2 = "layer".data)
        | _ => false) with
    | false =>
      rw [hc] at h
      have h2 := (pure_ok_iff (Json.arr xs) s2).mp h
      subst h2
      simp [jGetObjOpt] at hls
    | true =>
      rw [hc] at h
      obtain ⟨lv, hlv, h⟩ := (bind_ok_iff _ _ _).mp h
      exact Except.noConfusion hlv
  | obj kvs =>
    obtain ⟨hasL, hhl, h⟩ := (bind_ok_iff _ _ _).mp h
    simp only [jMember] at hhl
    injection hhl with hhl
    subst hhl
    cases hlk : lookupKV kvs "layer".data with
    | none =>
      rw [hlk] at h
      have h2 := (pure_ok_iff (Json.obj kvs) s2).mp h
      subst h2
      simp [jGetObjOpt, hlk] at hls
    | some lv =>
      rw [hlk] at h
      obtain ⟨d, hd, h⟩ := (bind_ok_iff _ _ _).mp h
      simp only [jSub, hlk] at hd
      injection hd with hd
      subst hd
      cases lv with
      | arr ls0 =>
        obtain ⟨ls2, hmap, hset⟩ := (bind_ok_iff _ _ _).mp h
        simp only [jSet] at hset
        injection hset with hset
        subst hset
        simp only [jGetObjOpt, lookupKV_setKV_self] at hls
        injection hls with hls
        injection hls with hls
        subst hls
        intro layer hmem
        obtain ⟨l0, hl0, hfl0⟩ := mapME_mem_exact _ _ _ hmap layer hmem
        exact ⟨l0, hfl0⟩
      | obj kvs2 =>
        obtain ⟨u, hu, h⟩ := (bind_ok_iff _ _ _).mp h
        have h2 := (pure_ok_iff (Json.obj kvs) s2).mp h
        subst h2
        simp only [jGetObjOpt, hlk] at hls
        injection hls with hls
        exact Json.noConfusion hls
      | str s =>
        obtain ⟨u, hu, h⟩ := (bind_ok_iff _ _ _).mp h
        have h2 := (pure_ok_iff (Json.obj kvs) s2).mp h
        subst h2
        simp only [jGetObjOpt, hlk] at hls
        injection hls with hls
        exact Json.noConfusion hls
      | null => exact Except.noConfusion h
      | bool b => exact Except.noConfusion h
      | num q => exact Except.noConfusion h

theorem fitCondTail_scale (ce1 out : Json) (h : fitCondTail ce1 = .ok out) :
    jGetObjOpt out "scale".data = jGetObjOpt ce1 "scale".data := by
  cases ce1 with
  | null => exact Except.noConfusion h
  | bool b => exact Except.noConfusion h
  | num q => exact Except.noConfusion h
  | str s =>
    obtain ⟨hasCond2, hhc2, h⟩ := (bind_ok_iff _ _ _).mp h
    simp only [jMember] at hhc2
    injection hhc2 with hhc2
    subst hhc2
    cases hc : containsSubL s "condition".data with
    | false =>
      rw [hc] at h
      obtain ⟨chv, hchv, h⟩ := (bind_ok_iff _ _ _).mp h
      have hchv2 := (pure_ok_iff false chv).mp hchv
      subst hchv2
      have h2 := (pure_ok_iff (Json.str s) out).mp h
      subst h2
      rfl
    | true =>
      rw [hc] at h
      obtain ⟨cond, hcond, h⟩ := (bind_ok_iff _ _ _).mp h
      exact Except.noConfusion hcond
  | arr xs =>
    obtain ⟨hasCond2, hhc2, h⟩ := (bind_ok_iff _ _ _).mp h
    simp only [jMember] at hhc2
    injection hhc2 with hhc2
    subst hhc2
    cases hc : (xs.any fun x => match x with
        | .str s2 => decide (s2 = "condition".data)
        | _ => false) with
    | false =>
      rw [hc] at h
      obtain ⟨chv, hchv, h⟩ := (bind_ok_iff _ _ _).mp h
      have hchv2 := (pure_ok_iff false chv).mp hchv
      subst hchv2
      have h2 := (pure_ok_iff (Json.arr xs) out).mp h
      subst h2
      rfl
    | true =>
      rw [hc] at h
      obtain ⟨cond, hcond, h⟩ := (bind_ok_iff _ _ _).mp h
      exact Except.noConfusion hcond
  | obj kvs1 =>
    obtain ⟨hasCond2, hhc2, h⟩ := (bind_ok_iff _ _ _).mp h
    simp only [jMember] at hhc2
    injection hhc2 with hhc2
    subst hhc2
    cases hcl1 : lookupKV kvs1 "condition".data with
    | none =>
      rw [hcl1] at h
      obtain ⟨chv, hchv, h⟩ := (bind_ok_iff _ _ _).mp h
      have hchv2 := (pure_ok_iff false chv).mp hchv
      subst hchv2
      have h2 := (pure_ok_iff (Json.obj kvs1) out).mp h
      subst h2
      rfl
    | some cond0 =>
      rw [hcl1] at h
      obtain ⟨cond, hcond, h⟩ := (bind_ok_iff _ _ _).mp h
      simp only [jSub, hcl1] at hcond
      injection hcond with hcond
      subst hcond
      obtain ⟨chv, hchv, h⟩ := (bind_ok_iff _ _ _).mp h
      cases cond0 with
      | null => exact Except.noConfusion hchv
      | bool b => exact Except.noConfusion hchv
      | num q => exact Except.noConfusion hchv
      | str cs =>
        simp only [jMember] at hchv
        injection hchv with hchv
        subst hchv
        cases hcv : containsSubL cs "value".data with
        | false =>
          rw [hcv] at h
          have h2 := (pure_ok_iff (Json.obj kvs1) out).mp h
          subst h2
          rfl
        | true =>
          rw [hcv] at h
          obtain ⟨cond, hcond, h⟩ := (bind_ok_iff _ _ _).mp h
          simp only [jSub, hcl1] at hcond
          injection hcond with hcond
          subst hcond
          obtain ⟨testOpt, htest, h⟩ := (bind_ok_iff _ _ _).mp h
          exact Except.noConfusion htest
      | arr cxs =>
        simp only [jMember] at hchv
        injection hchv with hchv
        subst hchv
        cases hcv : (cxs.any fun x => match x with
            | .str s2 => decide (s2 = "value".data)
            | _ => false) with
        | false =>
          rw [hcv] at h
          have h2 := (pure_ok_iff (Json.obj kvs1) out).mp h
          subst h2
          rfl
        | true =>
          rw [hcv] at h
          obtain ⟨cond, hcond, h⟩ := (bind_ok_iff _ _ _).mp h
          simp only [jSub, hcl1] at hcond
          injection hcond with hcond
          subst hcond
          obtain ⟨testOpt, htest, h⟩ := (bind_ok_iff _ _ _).mp h
          exact Except.noConfusion htest
      | obj condkvs =>
        simp only [jMember] at hchv
        injection hchv with hchv
        subst hchv
        cases hcv : lookupKV condkvs "value".data with
        | none =>
          rw [hcv] at h
          have h2 := (pure_ok_iff (Json.obj kvs1) out).mp h
          subst h2
          rfl
        | some v1 =>
          rw [hcv] at h
          obtain ⟨cond, hcond, h⟩ := (bind_ok_iff _ _ _).mp h
          simp only [jSub, hcl1] at hcond
          injection hcond with hcond
          subst hcond
          obtain ⟨testOpt, htest, h⟩ := (bind_ok_iff _ _ _).mp h
          simp only [jGetOpt] at htest
          injection htest with htest
          subst htest
          cases htl : lookupKV condkvs "test".data with
          | none =>
            rw [htl] at h
            have h2 := (pure_ok_iff (Json.obj kvs1) out).mp h
            subst h2
            rfl
          | some tv =>
            rw [htl] at h
            cases tv with
            | null => exact Except.noConfusion h
            | bool b => exact Except.noConfusion h
            | num q => exact Except.noConfusion h
            | arr txs => exact Except.noConfusion h
            | obj tkvs => exact Except.noConfusion h
            | str ts =>
              cases hexp : containsSubL (toLowerL ts) "expected".data with
              | true =>
                have h3 : (do
                    let cond' ← jSet (Json.obj condkvs) "value".data
                      (Json.str "#6366f1".data)
                    jSet (Json.obj kvs1) "condition".data cond') =
                    Except.ok out := by
                  have h4 : (if containsSubL (toLowerL ts) "expected".data
                      then (do
                        let cond' ← jSet (Json.obj condkvs) "value".data
                          (Json.str "#6366f1".data)
                        jSet (Json.obj kvs1) "condition".data cond')
                      else if containsSubL (toLowerL ts) "actual".data
                      then (do
                        let cond' ← jSet (Json.obj condkvs) "value".data
                          (Json.str "#10b981".data)
                        jSet (Json.obj kvs1) "condition".data cond')
                      else pure (Json.obj kvs1)) = Except.ok out := h
                  rw [hexp] at h4
                  exact h4
                obtain ⟨cond2, hcond2, h5⟩ := (bind_ok_iff _ _ _).mp h3
                simp only [jSet] at hcond2
                injection hcond2 with hcond2
                subst hcond2
                simp only [jSet] at h5
                injection h5 with h5
                subst h5
                simp only [jGetObjOpt]
                exact lookupKV_setKV_ne kvs1 "condition".data "scale".data _
                  (by decide)
              | false =>
                have h3 : (if containsSubL (toLowerL ts) "actual".data
                    then (do
                      let cond' ← jSet (Json.obj condkvs) "value".data
                        (Json.str "#10b981".data)
                      jSet (Json.obj kvs1) "condition".data cond')
                    else pure (Json.obj kvs1)) = Except.ok out := by
                  have h4 : (if containsSubL (toLowerL ts) "expected".data
                      then (do
                        let cond' ← jSet (Json.obj condkvs) "value".data
                          (Json.str "#6366f1".data)
                        jSet (Json.obj kvs1) "condition".data cond')
                      else if containsSubL (toLowerL ts) "actual".data
                      then (do
                        let cond' ← jSet (Json.obj condkvs) "value".data
                          (Json.str "#10b981".data)
                        jSet (Json.obj kvs1) "condition".data cond')
                      else pure (Json.obj kvs1)) = Except.ok out := h
                  rw [hexp] at h4
                  exact h4
                cases hact : containsSubL (toLowerL ts) "actual".data with
                | true =>
                  rw [hact] at h3
                  obtain ⟨cond2, hcond2, h5⟩ := (bind_ok_iff _ _ _).mp h3
                  simp only [jSet] at hcond2
                  injection hcond2 with hcond2
                  subst hcond2
                  simp only [jSet] at h5
                  injection h5 with h5
                  subst h5
                  simp only [jGetObjOpt]
                  exact lookupKV_setKV_ne kvs1 "condition".data "scale".data _
                    (by decide)
                | false =>
                  rw [hact] at h3
                  have h2 := (pure_ok_iff (Json.obj kvs1) out).mp h3
                  subst h2
                  rfl

theorem fitCondValueUpdate_scale (ce out : Json)
    (h : fitCondValueUpdate ce = .ok out) :
    jGetObjOpt out "scale".data = jGetObjOpt ce "scale".data := by
  cases ce with
  | null => exact Except.noConfusion h
  | bool b => exact Except.noConfusion h
  | num q => exact Except.noConfusion h
  | str s =>
    obtain ⟨hasCond, hhc, h⟩ := (bind_ok_iff _ _ _).mp h
    simp only [jMember] at hhc
    injection hhc with hhc
    subst hhc
    cases hc : containsSubL s "condition".data with
    | false =>
      rw [hc] at h
      have h2 := (pure_ok_iff (Json.str s) out).mp h
      subst h2
      rfl
    | true =>
      rw [hc] at h
      obtain ⟨hasVal, hhv, h⟩ := (bind_ok_iff _ _ _).mp h
      simp only [jMember] at hhv
      injection hhv with hhv
      subst hhv
      cases hv : containsSubL s "value".data with
      | true =>
        rw [hv] at h
        obtain ⟨ce1, hce1, h⟩ := (bind_ok_iff _ _ _).mp h
        exact Except.noConfusion hce1
      | false =>
        rw [hv] at h
        obtain ⟨ce1, hce1, h⟩ := (bind_ok_iff _ _ _).mp h
        have hce2 := (pure_ok_iff (Json.str s) ce1).mp hce1
        subst hce2
        exact fitCondTail_scale _ _ h
  | arr xs =>
    obtain ⟨hasCond, hhc, h⟩ := (bind_ok_iff _ _ _).mp h
    simp only [jMember] at hhc
    injection hhc with hhc
    subst hhc
    cases hc : (xs.any fun x => match x with
        | .str s2 => decide (s2 = "condition".data)
        | _ => false) with
    | false =>
      rw [hc] at h
      have h2 := (pure_ok_iff (Json.arr xs) out).mp h
      subst h2
      rfl
    | true =>
      rw [hc] at h
      obtain ⟨hasVal, hhv, h⟩ := (bind_ok_iff _ _ _).mp h
      simp only [jMember] at hhv
      injection hhv with hhv
      subst hhv
      cases hv : (xs.any fun x => match x with
          | .str s2 => decide (s2 = "value".data)
          | _ => false) with
      | true =>
        rw [hv] at h
        obtain ⟨ce1, hce1, h⟩ := (bind_ok_iff _ _ _).mp h
        exact Except.noConfusion hce1
      | false =>
        rw [hv] at h
        obtain ⟨ce1, hce1, h⟩ := (bind_ok_iff _ _ _).mp h
        have hce2 := (pure_ok_iff (Json.arr xs) ce1).mp hce1
        subst hce2
        exact fitCondTail_scale _ _ h
  | obj kvs =>
    obtain ⟨hasCond, hhc, h⟩ := (bind_ok_iff _ _ _).mp h
    simp only [jMember] at hhc
    injection hhc with hhc
    subst hhc
    cases hcl : lookupKV kvs "condition".data with
    | none =>
      rw [hcl] at h
      have h2 := (pure_ok_iff (Json.obj kvs) out).mp h
      subst h2
      rfl
    | some cond0 =>
      rw [hcl] at h
      obtain ⟨hasVal, hhv, h⟩ := (bind_ok_iff _ _ _).mp h
      simp only [jMember] at hhv
      injection hhv with hhv
      subst hhv
      cases hvl : lookupKV kvs "value".data with
      | none =>
        rw [hvl] at h
        obtain ⟨ce1, hce1, h⟩ := (bind_ok_iff _ _ _).mp h
        have hce2 := (pure_ok_iff (Json.obj kvs) ce1).mp hce1
        subst hce2
        exact fitCondTail_scale _ _ h
      | some v0 =>
        rw [hvl] at h
        obtain ⟨ce1, hce1, h⟩ := (bind_ok_iff _ _ _).mp h
        simp only [jSet] at hce1
        injection hce1 with hce1
        subst hce1
        rw [fitCondTail_scale _ _ h]
        simp only [jGetObjOpt]
        exact lookupKV_setKV_ne kvs "value".data "scale".data _ (by decide)

theorem transformFitColorEnc_out (ce out : Json)
    (h : transformFitColorEnc ce = .ok out) (sc : Json)
    (hsc : jGetObjOpt out "scale".data = some sc) (dom : List Json)
    (hdom : jGetObjOpt sc "domain".data = some (Json.arr dom)) :
    Json.str "baseline".data ∉ dom ∧
    ∀ rng, jGetObjOpt sc "range".data = some rng →
      rng = Json.arr (dom.map fitColor) := by
  cases ce with
  | null => exact Except.noConfusion h
  | bool b => exact Except.noConfusion h
  | num q => exact Except.noConfusion h
  | str s =>
    obtain ⟨hasScale, hhs, h⟩ := (bind_ok_iff _ _ _).mp h
    simp only [jMember] at hhs
    injection hhs with hhs
    subst hhs
    cases hc : containsSubL s "scale".data with
    | false =>
      rw [hc] at h
      obtain ⟨hsd, hhsd, h⟩ := (bind_ok_iff _ _ _).mp h
      have hhsd2 := (pure_ok_iff false hsd).mp hhsd
      subst hhsd2
      have h2 : fitCondValueUpdate (Json.str s) = Except.ok out := h
      rw [fitCondValueUpdate_scale _ _ h2] at hsc
      simp [jGetObjOpt] at hsc
    | true =>
      rw [hc] at h
      obtain ⟨sc0, hsc0, h⟩ := (bind_ok_iff _ _ _).mp h
      exact Except.noConfusion hsc0
  | arr xs =>
    obtain ⟨hasScale, hhs, h⟩ := (bind_ok_iff _ _ _).mp h
    simp only [jMember] at hhs
    injection hhs with hhs
    subst hhs
    cases hc : (xs.any fun x => match x with
        | .str s2 => decide (s2 = "scale".data)
        | _ => false) with
    | false =>
      rw [hc] at h
      obtain ⟨hsd, hhsd, h⟩ := (bind_ok_iff _ _ _).mp h
      have hhsd2 := (pure_ok_iff false hsd).mp hhsd
      subst hhsd2
      have h2 : fitCondValueUpdate (Json.arr xs) = Except.ok out := h
      rw [fitCondValueUpdate_scale _ _ h2] at hsc
      simp [jGetObjOpt] at hsc
    | true =>
      rw [hc] at h
      obtain ⟨sc0, hsc0, h⟩ := (bind_ok_iff _ _ _).mp h
      exact Except.noConfusion hsc0
  | obj kvs =>
    obtain ⟨hasScale, hhs, h⟩ := (bind_ok_iff _ _ _).mp h
    simp only [jMember] at hhs
    injection hhs with hhs
    subst hhs
    cases hsc0 : lookupKV kvs "scale".data with
    | none =>
      rw [hsc0] at h
      obtain ⟨hsd, hhsd, h⟩ := (bind_ok_iff _ _ _).mp h
      have hhsd2 := (pure_ok_iff false hsd).mp hhsd
      subst hhsd2
      have h2 : fitCondValueUpdate (Json.obj kvs) = Except.ok out := h
      rw [fitCondValueUpdate_scale _ _ h2] at hsc
      simp only [jGetObjOpt, hsc0] at hsc
      exact Option.noConfusion hsc
    | some sc0 =>
      rw [hsc0] at h
      obtain ⟨sc0', hsc0', h⟩ := (bind_ok_iff _ _ _).mp h
      simp only [jSub, hsc0] at hsc0'
      injection hsc0' with hsc0'
      subst hsc0'
      obtain ⟨hsd, hhsd, h⟩ := (bind_ok_iff _ _ _).mp h
      cases sc0 with
      | null => exact Except.noConfusion hhsd
      | bool b => exact Except.noConfusion hhsd
      | num q => exact Except.noConfusion hhsd
      | str ss =>
        simp only [jMember] at hhsd
        injection hhsd with hhsd
        subst hhsd
        cases hds : containsSubL ss "domain".data with
        | false =>
          rw [hds] at h
          have h2 : fitCondValueUpdate (Json.obj kvs) = Except.ok out := h
          rw [fitCondValueUpdate_scale _ _ h2] at hsc
          simp only [jGetObjOpt, hsc0] at hsc
          injection hsc with hsc
          subst hsc
          simp [jGetObjOpt] at hdom
        | true =>
          rw [hds] at h
          obtain ⟨sc', hsc', h⟩ := (bind_ok_iff _ _ _).mp h
          simp only [jSub, hsc0] at hsc'
          injection hsc' with hsc'
          subst hsc'
          obtain ⟨dom', hdom', h⟩ := (bind_ok_iff _ _ _).mp h
          exact Except.noConfusion hdom'
      | arr sxs =>
        simp only [jMember] at hhsd
        injection hhsd with hhsd
        subst hhsd
        cases hds : (sxs.any fun x => match x with
            | .str s2 => decide (s2 = "domain".data)
            | _ => false) with
        | false =>
          rw [hds] at h
          have h2 : fitCondValueUpdate (Json.obj kvs) = Except.ok out := h
          rw [fitCondValueUpdate_scale _ _ h2] at hsc
          simp only [jGetObjOpt, hsc0] at hsc
          injection hsc with hsc
          subst hsc
          simp [jGetObjOpt] at hdom
        | true =>
          rw [hds] at h
          obtain ⟨sc', hsc', h⟩ := (bind_ok_iff _ _ _).mp h
          simp only [jSub, hsc0] at hsc'
          injection hsc' with hsc'
          subst hsc'
          obtain ⟨dom', hdom', h⟩ := (bind_ok_iff _ _ _).mp h
          exact Except.noConfusion hdom'
      | obj sckvs =>
        simp only [jMember] at hhsd
        injection hhsd with hhsd
        subst hhsd
        cases hdl : lookupKV sckvs "domain".data with
        | none =>
          rw [hdl] at h
          have h2 : fitCondValueUpdate (Json.obj kvs) = Except.ok out := h
          rw [fitCondValueUpdate_scale _ _ h2] at hsc
          simp only [jGetObjOpt, hsc0] at hsc
          injection hsc with hsc
          subst hsc
          simp only [jGetObjOpt, hdl] at hdom
          exact Option.noConfusion hdom
        | some dom0 =>
          rw [hdl] at h
          obtain ⟨sc', hsc', h⟩ := (bind_ok_iff _ _ _).mp h
          simp only [jSub, hsc0] at hsc'
          injection hsc' with hsc'
          subst hsc'
          obtain ⟨dom', hdom', h⟩ := (bind_ok_iff _ _ _).mp h
          simp only [jSub, hdl] at hdom'
          injection hdom' with hdom'
          subst hdom'
          obtain ⟨delems, hdel, h⟩ := (bind_ok_iff _ _ _).mp h
          obtain ⟨sc1, hsc1, h⟩ := (bind_ok_iff _ _ _).mp h
          simp only [jSet] at hsc1
          injection hsc1 with hsc1
          subst hsc1
          obtain ⟨hasRange, hhr, h⟩ := (bind_ok_iff _ _ _).mp h
          simp only [jMember] at hhr
          injection hhr with hhr
          subst hhr
          rw [lookupKV_setKV_ne sckvs "domain".data "range".data _
            (by decide)] at h
          cases hrl : lookupKV sckvs "range".data with
          | none =>
            rw [hrl] at h
            obtain ⟨sc2, hsc2, h⟩ := (bind_ok_iff _ _ _).mp h
            have hsc2e := (pure_ok_iff _ sc2).mp hsc2
            subst hsc2e
            simp only [jSet] at h
            injection h with h
            subst h
            simp only [jGetObjOpt, lookupKV_setKV_self] at hsc
            injection hsc with hsc
            subst hsc
            simp only [jGetObjOpt, lookupKV_setKV_self] at hdom
            injection hdom with hdom
            injection hdom with hdom
            subst hdom
            constructor
            · intro hmem
              exact absurd (List.mem_filter.mp hmem).2 (by decide)
            · intro rng hrng
              rw [jGetObjOpt] at hrng
              rw [lookupKV_setKV_ne sckvs "domain".data "range".data _
                (by decide), hrl] at hrng
              exact Option.noConfusion hrng
          | some r0 =>
            rw [hrl] at h
            obtain ⟨nr, hnr, h⟩ := (bind_ok_iff _ _ _).mp h
            obtain ⟨sc2, hsc2, h⟩ := (bind_ok_iff _ _ _).mp h
            simp only [jSet] at hsc2
            injection hsc2 with hsc2
            subst hsc2
            simp only [jSet] at h
            injection h with h
            subst h
            simp only [jGetObjOpt, lookupKV_setKV_self] at hsc
            injection hsc with hsc
            subst hsc
            rw [jGetObjOpt] at hdom
            rw [lookupKV_setKV_ne _ "range".data "domain".data _
              (by decide), lookupKV_setKV_self] at hdom
            injection hdom with hdom
            injection hdom with hdom
            subst hdom
            constructor
            · intro hmem
              exact absurd (List.mem_filter.mp hmem).2 (by decide)
            · intro rng hrng
              simp only [jGetObjOpt, lookupKV_setKV_self] at hrng
              injection hrng with hrng
              subst hrng
              rw [mapFitColorE_eq _ _ hnr,
                List.take_of_length_le (le_of_eq (List.length_map _ _))]

theorem transformFitLayer_out (layer out : Json)
    (h : transformLayerWith transformFitColorEnc layer = .ok out)
    (enc ce sc : Json) (dom : List Json)
    (henc : jGetObjOpt out "encoding".data = some enc)
    (hce : jGetObjOpt enc "color".data = some ce)
    (hsc : jGetObjOpt ce "scale".data = some sc)
    (hdom : jGetObjOpt sc "domain".data = some (Json.arr dom)) :
    Json.str "baseline".data ∉ dom ∧
    ∀ rng, jGetObjOpt sc "range".data = some rng →
      rng = Json.arr (dom.map fitColor) := by
  cases layer with
  | null => exact Except.noConfusion h
  | bool b => exact Except.noConfusion h
  | num q => exact Except.noConfusion h
  | str s =>
    obtain ⟨hasEnc, hhe, h⟩ := (bind_ok_iff _ _ _).mp h
    simp only [jMember] at hhe
    injection hhe with hhe
    subst hhe
    cases hc : containsSubL s "encoding".data with
    | false =>
      rw [hc] at h
      obtain ⟨hcol, hhcol, h⟩ := (bind_ok_iff _ _ _).mp h
      have hhcol2 := (pure_ok_iff false hcol).mp hhcol
      subst hhcol2
      have h2 := (pure_ok_iff (Json.str s) out).mp h
      subst h2
      simp [jGetObjOpt] at henc
    | true =>
      rw [hc] at h
      obtain ⟨enc0, henc0, h⟩ := (bind_ok_iff _ _ _).mp h
      exact Except.noConfusion henc0
  | arr xs =>
    obtain ⟨hasEnc, hhe, h⟩ := (bind_ok_iff _ _ _).mp h
    simp only [jMember] at hhe
    injection hhe with hhe
    subst hhe
    cases hc : (xs.any fun x => match x with
        | .str s2 => decide (s2 = "encoding".data)
        | _ => false) with
    | false =>
      rw [hc] at h
      obtain ⟨hcol, hhcol, h⟩ := (bind_ok_iff _ _ _).mp h
      have hhcol2 := (pure_ok_iff false hcol).mp hhcol
      subst hhcol2
      have h2 := (pure_ok_iff (Json.arr xs) out).mp h
      subst h2
      simp [jGetObjOpt] at henc
    | true =>
      rw [hc] at h
      obtain ⟨enc0, henc0, h⟩ := (bind_ok_iff _ _ _).mp h
      exact Except.noConfusion henc0
  | obj kvs =>
    obtain ⟨hasEnc, hhe, h⟩ := (bind_ok_iff _ _ _).mp h
    simp only [jMember] at hhe
    injection hhe with hhe
    subst hhe
    cases hel : lookupKV kvs "encoding".data with
    | none =>
      rw [hel] at h
      obtain ⟨hcol, hhcol, h⟩ := (bind_ok_iff _ _ _).mp h
      have hhcol2 := (pure_ok_iff false hcol).mp hhcol
      subst hhcol2
      have h2 := (pure_ok_iff (Json.obj kvs) out).mp h
      subst h2
      simp only [jGetObjOpt, hel] at henc
      exact Option.noConfusion henc
    | some enc0 =>
      rw [hel] at h
      obtain ⟨enc0', henc0', h⟩ := (bind_ok_iff _ _ _).mp h
      simp only [jSub, hel] at henc0'
      injection henc0' with henc0'
      subst henc0'
      obtain ⟨hasColor, hhcol, h⟩ := (bind_ok_iff _ _ _).mp h
      cases enc0 with
      | null => exact Except.noConfusion hhcol
      | bool b => exact Except.noConfusion hhcol
      | num q => exact Except.noConfusion hhcol
      | str es =>
        simp only [jMember] at hhcol
        injection hhcol with hhcol
        subst hhcol
        cases hc2 : containsSubL es "color".data with
        | false =>
          rw [hc2] at h
          have h2 := (pure_ok_iff (Json.obj kvs) out).mp h
          subst h2
          simp only [jGetObjOpt, hel] at henc
          injection henc with henc
          subst henc
          simp [jGetObjOpt] at hce
        | true =>
          rw [hc2] at h
          obtain ⟨enc1, henc1, h⟩ := (bind_ok_iff _ _ _).mp h
          simp only [jSub, hel] at henc1
          injection henc1 with henc1
          subst henc1
          obtain ⟨ce0, hce0, h⟩ := (bind_ok_iff _ _ _).mp h
          exact Except.noConfusion hce0
      | arr exs =>
        simp only [jMember] at hhcol
        injection hhcol with hhcol
        subst hhcol
        cases hc2 : (exs.any fun x => match x with
            | .str s2 => decide (s2 = "color".data)
            | _ => false) with
        | false =>
          rw [hc2] at h
          have h2 := (pure_ok_iff (Json.obj kvs) out).mp h
          subst h2
          simp only [jGetObjOpt, hel] at henc
          injection henc with henc
          subst henc
          simp [jGetObjOpt] at hce
        | true =>
          rw [hc2] at h
          obtain ⟨enc1, henc1, h⟩ := (bind_ok_iff _ _ _).mp h
          simp only [jSub, hel] at henc1
          injection henc1 with henc1
          subst henc1
          obtain ⟨ce0, hce0, h⟩ := (bind_ok_iff _ _ _).mp h
          exact Except.noConfusion hce0
      | obj ekvs =>
        simp only [jMember] at hhcol
        injection hhcol with hhcol
        subst hhcol
        cases hcl : lookupKV ekvs "color".data with
        | none =>
          rw [hcl] at h
          have h2 := (pure_ok_iff (Json.obj kvs) out).mp h
          subst h2
          simp only [jGetObjOpt, hel] at henc
          injection henc with henc
          subst henc
          simp only [jGetObjOpt, hcl] at hce
          exact Option.noConfusion hce
        | some ce0 =>
          rw [hcl] at h
          obtain ⟨enc1, henc1, h⟩ := (bind_ok_iff _ _ _).mp h
          simp only [jSub, hel] at henc1
          injection henc1 with henc1
          subst henc1
          obtain ⟨ce0', hce0', h⟩ := (bind_ok_iff _ _ _).mp h
          simp only [jSub, hcl] at hce0'
          injection hce0' with hce0'
          subst hce0'
          obtain ⟨ce', hce', h⟩ := (bind_ok_iff _ _ _).mp h
          obtain ⟨enc', henc', h⟩ := (bind_ok_iff _ _ _).mp h
          simp only [jSet] at henc'
          injection henc' with henc'
          subst henc'
          simp only [jSet] at h
          injection h with h
          subst h
          simp only [jGetObjOpt, lookupKV_setKV_self] at henc
          injection henc with henc
          subst henc
          simp only [jGetObjOpt, lookupKV_setKV_self] at hce
          injection hce with hce
          subst hce
          exact transformFitColorEnc_out ce0 ce' hce' sc hsc dom hdom

/-- C2: every spec accepted by the model-fit transform comes out with (a) all
named datasets free of entries whose "type" field is "baseline", and (b) in
every layer color scale of the output, "baseline" (exact match) absent from
the domain, and any range present rebuilt in parallel from the filtered
domain by keyword match (value containing "expected" mapping to "#6366f1",
containing "actual" to "#10b981", anything else to "#6366f1"), aligned to the
filtered domain's length. -/
theorem claim_C2 (spec res : Json)
    (h : transform_model_fit_spec spec = Except.ok res) :
    (∀ ds name v, jGetObjOpt res "datasets".data = some (Json.obj ds) →
      lookupKV ds name = some v →
      ∃ items, v = Json.arr items ∧ ∀ it ∈ items, noBaselineItem it = true) ∧
    (∀ ls layer enc ce sc dom,
      jGetObjOpt res "layer".data = some (Json.arr ls) → layer ∈ ls →
      jGetObjOpt layer "encoding".data = some enc →
      jGetObjOpt enc "color".data = some ce →
      jGetObjOpt ce "scale".data = some sc →
      jGetObjOpt sc "domain".data = some (Json.arr dom) →
      Json.str "baseline".data ∉ dom ∧
      ∀ rng, jGetObjOpt sc "range".data = some rng →
        rng = Json.arr (dom.map fitColor)) := by
  obtain ⟨s1, hs1, h⟩ := (bind_ok_iff _ _ _).mp h
  obtain ⟨s2, hs2, h3⟩ := (bind_ok_iff _ _ _).mp h
  constructor
  · intro ds name v hds hv
    rw [clearTitle_other s2 res h3 "datasets".data (by decide)] at hds
    rw [transformLayersWith_other _ s1 s2 hs2 "datasets".data (by decide)]
      at hds
    exact fitFilterDatasets_datasets spec s1 hs1 ds hds name v hv
  · intro ls layer enc ce sc dom hls hmem henc hce hsc hdom
    rw [clearTitle_other s2 res h3 "layer".data (by decide)] at hls
    obtain ⟨l0, hl0⟩ := transformLayersWith_layers _ s1 s2 hs2 ls hls
      layer hmem
    exact transformFitLayer_out l0 layer hl0 enc ce sc dom henc hce hsc hdom

def itemsC2ex : List Json := [Json.obj [("type".data, Json.str "actual".data)]]

def scC2ex : Json :=
  Json.obj [
    ("domain".data, Json.arr [Json.str "Expected".data,
      Json.str "actual".data]),
    ("range".data, Json.arr [Json.str "#6366f1".data,
      Json.str "#10b981".data])]

def ceC2ex : Json := Json.obj [("scale".data, scC2ex)]

def encC2ex : Json := Json.obj [("color".data, ceC2ex)]

def layerC2ex : Json := Json.obj [("encoding".data, encC2ex)]

def specC2ex : Json :=
  Json.obj [
    ("datasets".data, Json.obj [
      ("d1".data, Json.arr [
        Json.obj [("type".data, Json.str "baseline".data)],
        Json.obj [("type".data, Json.str "actual".data)]])]),
    ("layer".data, Json.arr [
      Json.obj [("encoding".data, Json.obj [
        ("color".data, Json.obj [
          ("scale".data, Json.obj [
            ("domain".data, Json.arr [
              Json.str "baseline".data, Json.str "Expected".data,
              Json.str "actual".data]),
            ("range".data, Json.arr [
              Json.str "a".data, Json.str "b".data,
              Json.str "c".data])])])])]]),
    ("title".data, Json.str "T".data)]

def resC2ex : Json :=
  Json.obj [
    ("datasets".data, Json.obj [("d1".data, Json.arr itemsC2ex)]),
    ("layer".data, Json.arr [layerC2ex]),
    ("title".data, Json.null)]

theorem claim_C2_witness :
    (∃ items, Json.arr itemsC2ex = Json.arr items ∧
        ∀ it ∈ items, noBaselineItem it = true) ∧
    Json.str "baseline".data ∉
      [Json.str "Expected".data, Json.str "actual".data] ∧
    Json.arr [Json.str "#6366f1".data, Json.str "#10b981".data] =
      Json.arr ([Json.str "Expected".data, Json.str "actual".data].map
        fitColor) := by
  have h := claim_C2 specC2ex resC2ex (by rfl)
  have h2 := h.2 [layerC2ex] layerC2ex encC2ex ceC2ex scC2ex
    [Json.str "Expected".data, Json.str "actual".data]
    (by rfl) (List.mem_cons_self _ _) (by rfl) (by rfl) (by rfl) (by rfl)
  exact ⟨h.1 [("d1".data, Json.arr itemsC2ex)] "d1".data (Json.arr itemsC2ex)
      (by rfl) (by rfl),
    h2.1,
    h2.2 (Json.arr [Json.str "#6366f1".data, Json.str "#10b981".data])
      (by rfl)⟩
